import Mathlib

set_option maxHeartbeats 1000000

/-!
Verification development for the docs-fetch-mcp web exploration server.

The TypeScript sources (src/server.ts holding two implementations of the
DocsFetchServer class, src/content/content-extractor.ts, src/browser/
browser-manager.ts, src/types/index.ts) are modelled by computable Lean
functions.  Strings are sequences of characters (List Char under String);
the JavaScript regular-expression operations used by the code are
implemented directly as recursive functions with the exact semantics of
the regexes appearing in the source.  Asynchronous fetches are modelled by
deterministic environments mapping a URL to the outcome the network and
the rendering engine produce for it during the request.
-/

/-! Layer 1: the JavaScript string operations used by the source. -/

/-- Whitespace class of the JavaScript regex escape backslash-s, restricted
to the code points that occur in practice (space, tab, newline, carriage
return, vertical tab, form feed, no-break space). -/
def isJsWs (c : Char) : Bool :=
  c = ' ' || c = '\t' || c = '\n' || c = '\r' || c = '\x0b' || c = '\x0c' || c = '\u00A0'

/-- ASCII lowercasing of one character, as performed by the case-insensitive
regex flag and by String.prototype.toLowerCase on ASCII input (the only
input the modelled call sites lowercase). -/
def toLowerAscii (c : Char) : Char :=
  if c = 'A' then 'a' else if c = 'B' then 'b' else if c = 'C' then 'c'
  else if c = 'D' then 'd' else if c = 'E' then 'e' else if c = 'F' then 'f'
  else if c = 'G' then 'g' else if c = 'H' then 'h' else if c = 'I' then 'i'
  else if c = 'J' then 'j' else if c = 'K' then 'k' else if c = 'L' then 'l'
  else if c = 'M' then 'm' else if c = 'N' then 'n' else if c = 'O' then 'o'
  else if c = 'P' then 'p' else if c = 'Q' then 'q' else if c = 'R' then 'r'
  else if c = 'S' then 's' else if c = 'T' then 't' else if c = 'U' then 'u'
  else if c = 'V' then 'v' else if c = 'W' then 'w' else if c = 'X' then 'x'
  else if c = 'Y' then 'y' else if c = 'Z' then 'z' else c

/-- Lowercase a character list (model of toLowerCase on ASCII). -/
def toLowerL (l : List Char) : List Char := l.map toLowerAscii

/-- Test whether needle occurs at the head of hay (case-sensitive). -/
def startsWithL : List Char → List Char → Bool
  | [], _ => true
  | _ :: _, [] => false
  | t :: ts, c :: cs => c = t && startsWithL ts cs

/-- Substring containment, model of String.prototype.includes. -/
def containsSub (needle : List Char) : List Char → Bool
  | [] => startsWithL needle []
  | c :: cs => startsWithL needle (c :: cs) || containsSub needle cs

/-- Test whether the lowercase token tok matches at the head of hay up to
ASCII case (model of matching a fixed literal under the regex i flag). -/
def matchesTokCI : List Char → List Char → Bool
  | [], _ => true
  | _ :: _, [] => false
  | t :: ts, c :: cs => toLowerAscii c = t && matchesTokCI ts cs

/-- Locate the leftmost case-insensitive occurrence of tok, returning the
part before the occurrence and the part after it. -/
def splitAtTok (tok : List Char) : List Char → Option (List Char × List Char)
  | [] => if tok.isEmpty then some ([], []) else none
  | c :: cs =>
    if matchesTokCI tok (c :: cs) then some ([], (c :: cs).drop tok.length)
    else match splitAtTok tok cs with
         | some (b, a) => some (c :: b, a)
         | none => none

/-- Collapse every maximal whitespace run to one space; the flag records
whether the previous character belonged to a run already emitted.  Model of
replace backslash-s-plus with a single space under the g flag. -/
def collapseGo : Bool → List Char → List Char
  | _, [] => []
  | prevWs, c :: cs =>
    if isJsWs c then
      if prevWs then collapseGo true cs else ' ' :: collapseGo true cs
    else c :: collapseGo false cs

/-- Whitespace-run collapsing on a character list. -/
def collapseWsL (l : List Char) : List Char := collapseGo false l

/-- Drop trailing JavaScript whitespace. -/
def trimRight : List Char → List Char
  | [] => []
  | c :: cs =>
    match trimRight cs with
    | [] => if isJsWs c then [] else [c]
    | r => c :: r

/-- Model of String.prototype.trim. -/
def trimL (l : List Char) : List Char := trimRight (l.dropWhile isJsWs)

/-- Strip tag-shaped regions, model of replacing the regex
lt-nonGt-star-gt with a single space under the g flag.  The accumulator
holds the characters read since an unmatched opening angle bracket, in
reverse; when the input ends without a closing bracket the buffered region
is emitted verbatim, exactly as the regex leaves it unmatched. -/
def stripAux : List Char → Option (List Char) → List Char
  | [], none => []
  | [], some buf => '<' :: buf.reverse
  | c :: cs, none => if c = '<' then stripAux cs (some []) else c :: stripAux cs none
  | c :: cs, some buf => if c = '>' then ' ' :: stripAux cs none else stripAux cs (some (c :: buf))

/-- Tag stripping entry point. -/
def stripTagsL (l : List Char) : List Char := stripAux l none

/-- Remove the first lazily matched block openTok ... closeTok (model of a
non-global case-insensitive replace of open, any characters lazily, close,
by the empty string).  When the open token, or a close token after it, is
absent, the regex does not match anywhere and the input is unchanged. -/
def removeFirstBlock (openTok closeTok l : List Char) : List Char :=
  match splitAtTok openTok l with
  | none => l
  | some (b, rest) =>
    match splitAtTok closeTok rest with
    | none => l
    | some (_, after) => b ++ after

/-- Remove every lazily matched block under the g flag; scanning resumes
after each removed block.  The fuel argument bounds the recursion and is
always sufficient because every removal strictly shortens the remainder. -/
def removeBlocksFuel (openTok closeTok : List Char) : Nat → List Char → List Char
  | 0, l => l
  | fuel + 1, l =>
    match splitAtTok openTok l with
    | none => l
    | some (b, rest) =>
      match splitAtTok closeTok rest with
      | none => l
      | some (_, after) => b ++ removeBlocksFuel openTok closeTok fuel after

/-- Global removal of openTok ... closeTok blocks. -/
def removeBlocks (openTok closeTok l : List Char) : List Char :=
  removeBlocksFuel openTok closeTok l.length l

/-- Index of the last newline within l, used by the lazy-backtracking model
of the regex newline, whitespace-star, newline. -/
def lastNlIdx : List Char → Option Nat
  | [] => none
  | c :: cs =>
    match lastNlIdx cs with
    | some k => some (k + 1)
    | none => if c = '\n' then some 0 else none

/-- Replace every match of newline, whitespace-star, newline by two
newlines (g flag).  At a newline the greedy-then-backtracking whitespace
star ends at the last newline inside the following whitespace run; with no
such newline the position does not match.  Fuel as above. -/
def nlCollapseFuel : Nat → List Char → List Char
  | 0, l => l
  | fuel + 1, l =>
    match l with
    | [] => []
    | c :: cs =>
      if c = '\n' then
        match lastNlIdx (cs.takeWhile isJsWs) with
        | some k => '\n' :: '\n' :: nlCollapseFuel fuel (cs.drop (k + 1))
        | none => c :: nlCollapseFuel fuel cs
      else c :: nlCollapseFuel fuel cs

/-- Blank-line collapsing entry point. -/
def nlCollapse (l : List Char) : List Char := nlCollapseFuel l.length l

/-- Word character of the JavaScript regex escape backslash-w. -/
def isWordChar (c : Char) : Bool :=
  ('a' ≤ c && c ≤ 'z') || ('A' ≤ c && c ≤ 'Z') || ('0' ≤ c && c ≤ '9') || c = '_'

/-- Remove a trailing file extension: leftmost match of a dot followed by
one or more word characters extending to the end of the string. -/
def stripExtL : List Char → List Char
  | [] => []
  | c :: cs =>
    if c = '.' && !cs.isEmpty && cs.all isWordChar then []
    else c :: stripExtL cs

/-- ASCII lowercase letter test. -/
def isLowerA (c : Char) : Bool := 'a' ≤ c && c ≤ 'z'

/-- ASCII uppercase letter test. -/
def isUpperA (c : Char) : Bool := 'A' ≤ c && c ≤ 'Z'

/-- Insert a space between a lowercase letter and a following uppercase
letter (global replace of the camel-case boundary pattern). -/
def camelSpaceL : List Char → List Char
  | a :: b :: rest =>
    if isLowerA a && isUpperA b then a :: ' ' :: b :: camelSpaceL rest
    else a :: camelSpaceL (b :: rest)
  | l => l

/-- Split a character list on a separator character. -/
def splitOnCharL (sep : Char) (l : List Char) : List (List Char) :=
  match l with
  | [] => [[]]
  | c :: cs =>
    let r := splitOnCharL sep cs
    if c = sep then [] :: r
    else match r with
         | [] => [[c]]
         | h :: t => (c :: h) :: t

/-! Layer 2: String wrappers used by the server model. -/

/-- Model of String.prototype.trim. -/
def strTrim (s : String) : String := ⟨trimL s.data⟩

/-- Model of toLowerCase on the ASCII inputs the call sites feed it. -/
def strToLower (s : String) : String := ⟨toLowerL s.data⟩

/-- Model of String.prototype.startsWith. -/
def strStartsWith (s pre : String) : Bool := startsWithL pre.data s.data

/-- Model of String.prototype.includes. -/
def strContains (s sub : String) : Bool := containsSub sub.data s.data

/-- Truncation marker appended by both truncating paths of server.ts. -/
def truncMarker : String := "... (content truncated)"

/-- Length bound with marker: model of the substring-plus-marker step
guarded by length greater than 10000 (lines 282 to 284 and 416 to 418 of
the simplified server). -/
def truncateTextL (l : List Char) : List Char :=
  if 10000 < l.length then l.take 10000 ++ truncMarker.data else l

/-- Cleaning pipeline of extractTextContent before truncation: remove the
first head block, all script blocks, all style blocks (case-insensitive),
strip remaining tags to spaces, collapse whitespace, trim. -/
def basicCleanL (l : List Char) : List Char :=
  trimL (collapseWsL (stripTagsL
    (removeBlocks "<style".data "</style>".data
      (removeBlocks "<script".data "</script>".data
        (removeFirstBlock "<head>".data "</head>".data l)))))

/-- Model of DocsFetchServer.extractTextContent of the simplified server
(basic HTML to text conversion followed by truncation). -/
def extractTextContent (html : String) : String :=
  ⟨truncateTextL (basicCleanL html.data)⟩

/-- Cleaning pipeline of ContentExtractor.cleanText: collapse whitespace
runs to single spaces, collapse blank-line runs, trim. -/
def cleanTextL (l : List Char) : List Char :=
  trimL (nlCollapse (collapseWsL l))

/-- Model of ContentExtractor.cleanText (identical code also runs inside
the page evaluate of extractContent). -/
def cleanText (s : String) : String := ⟨cleanTextL s.data⟩

/-! Layer 3: the URL platform model.  The WHATWG URL constructor used via
new URL(href, base) is modelled for the subset the claims exercise:
absolute http and https URLs with lowercase scheme and host and without
credentials, port, query or fragment, plus path-absolute and path-relative
references without dot-segment normalisation.  All concrete inputs in this
development stay inside this subset. -/

/-- Parsed URL parts. -/
structure UrlParts where
  scheme : String
  host : String
  path : String
deriving DecidableEq

/-- Parse an absolute http or https URL; failure models the constructor
throwing. -/
def parseUrl (s : String) : Option UrlParts :=
  let absOf := fun (sch : String) (rest : List Char) =>
    let host := rest.takeWhile (fun c => c != '/')
    let path := rest.dropWhile (fun c => c != '/')
    if host.isEmpty then none
    else some { scheme := sch, host := ⟨host⟩, path := if path.isEmpty then "/" else ⟨path⟩ }
  if strStartsWith s "https://" then absOf "https" (s.data.drop 8)
  else if strStartsWith s "http://" then absOf "http" (s.data.drop 7)
  else none

/-- Serialised form of parsed URL parts (the href property). -/
def urlHref (u : UrlParts) : String := u.scheme ++ "://" ++ u.host ++ u.path

/-- Directory part of a path: everything up to and including the last
slash. -/
def dirOfPath (p : String) : String :=
  ⟨((p.data.reverse).dropWhile (fun c => c != '/')).reverse⟩

/-- Model of new URL(href, base).href: parse the base (throwing on
failure), then resolve href against it. -/
def jsUrlResolve (href base : String) : Option String :=
  match parseUrl base with
  | none => none
  | some b =>
    match parseUrl href with
    | some u => some (urlHref u)
    | none =>
      if strStartsWith href "//" then none
      else if strStartsWith href "/" then some (urlHref { b with path := href })
      else if href = "" then some (urlHref b)
      else some (urlHref { b with path := dirOfPath b.path ++ href })

/-- Hostname of a parseable URL. -/
def hostOf (s : String) : Option String := (parseUrl s).map UrlParts.host

/-- Model of DocsFetchServer.isSameDomain of the recursive server, also of
the inline hostname comparisons of the simplified server: parse both URLs
and compare hostnames, any parse failure giving false. -/
def isSameDomain (u1 u2 : String) : Bool :=
  match parseUrl u1, parseUrl u2 with
  | some a, some b => a.host = b.host
  | _, _ => false

/-- Model of BrowserManager.isValidUrl restricted to the modelled URL
subset. -/
def isValidUrl (s : String) : Bool := (parseUrl s).isSome

/-- Model of DocsFetchServer.resolveUrl of the recursive server: absolute
http or https hrefs are returned verbatim, script, mail, tel and fragment
references are rejected, anything else is resolved against the base with
the URL constructor, failure giving null. -/
def resolveUrl (href base : String) : Option String :=
  if strStartsWith href "http://" || strStartsWith href "https://" then some href
  else if strStartsWith href "javascript:" || strStartsWith href "mailto:" ||
          strStartsWith href "tel:" || strStartsWith href "#" then none
  else jsUrlResolve href base

/-! Layer 4: data model shared by both server implementations. -/

/-- Link entry of the external result shape. -/
structure DocLink where
  url : String
  text : String
deriving DecidableEq

/-- PageResult: one page of the aggregate result.  The recursive server
fills the title field, the simplified server leaves it absent. -/
structure PageResult where
  url : String
  title : Option String
  content : String
  links : List DocLink
deriving DecidableEq

/-- ExplorationResult: the external-facing aggregate. -/
structure ExplorationResult where
  rootUrl : String
  explorationDepth : Nat
  pagesExplored : Nat
  content : List PageResult
  error : Option String
deriving DecidableEq

/-- Tool response returned over MCP: a success carrying the structured
result, or a response with the isError flag set carrying an error text. -/
inductive ToolResponse where
  | success (r : ExplorationResult)
  | failure (text : String)
deriving DecidableEq

/-! Layer 5: the simplified server, the first implementation in server.ts
(axios fast path with puppeteer fallback). -/

/-- Anchor occurrence produced by the link regex of extractLinks or by the
DOM query of the puppeteer evaluate: the raw href attribute value and the
anchor text.  The regex engine and the DOM are platform capabilities; the
model takes the list of matches as given alongside the raw markup. -/
structure RawAnchor where
  href : String
  text : String
deriving DecidableEq

/-- Body of an HTTP response as seen by the code: the raw markup string
together with the anchor matches the link regex finds in it. -/
structure HtmlDoc where
  raw : String
  anchors : List RawAnchor
deriving DecidableEq

/-- Data field of a resolved axios response: a string body, or a
non-string value such as JSON parsed into an object. -/
inductive AxiosData where
  | str (doc : HtmlDoc)
  | nonStr
deriving DecidableEq

/-- Outcome of one axios.get call: a resolved response with status and
data, or a rejection (network error, timeout, non-2xx status). -/
inductive AxiosOutcome where
  | ok (status : Nat) (data : AxiosData)
  | err
deriving DecidableEq

/-- Result of the puppeteer page evaluate of the simplified server: the
text content of the selected main element (trimmed inside the evaluate)
and the raw anchors of the document. -/
structure RenderedPage where
  mainText : String
  anchors : List RawAnchor
deriving DecidableEq

/-- Outcome of the puppeteer fetch of the simplified server: an evaluated
page, or a thrown error with its message. -/
inductive PuppeteerOutcome where
  | page (p : RenderedPage)
  | failure (msg : String)
deriving DecidableEq

/-- Deterministic request environment of the simplified server: the
outcome of the root axios.get (10 second timeout), of the child axios.get
issued by fetchSimpleContent (5 second timeout), and of the puppeteer
fetch, per URL. -/
structure FetchEnv where
  axiosResp : String → AxiosOutcome
  simpleResp : String → AxiosOutcome
  puppeteer : String → PuppeteerOutcome

/-- User-Agent header sent by both axios calls of the simplified server. -/
def chromeUA : String :=
  "Mozilla/5.0 (Windows NT 10.0; Win64; x64) AppleWebKit/537.36 (KHTML, like Gecko) Chrome/91.0.4472.124 Safari/537.36"

/-- Acceptance test of the axios fast path (line 172 of the simplified
server): status 200, truthy data, data of string type.  A present but
empty string body is falsy and therefore not accepted. -/
def axiosAccepted : AxiosOutcome → Option HtmlDoc
  | .ok status (.str d) => if status = 200 ∧ d.raw ≠ "" then some d else none
  | _ => none

/-- Model of DocsFetchServer.fetchSimpleContent: the child fetch, giving
the extracted text on acceptance and null on any failure. -/
def fetchSimpleContent (env : FetchEnv) (url : String) : Option String :=
  match axiosAccepted (env.simpleResp url) with
  | some d => some (extractTextContent d.raw)
  | none => none

/-- Model of DocsFetchServer.extractLinks of the simplified server: trim
href and text of each regex match, skip empty hrefs and fragment, script,
mail and tel references, resolve against the base URL, keep same-domain
links only, default the text to the resolved URL. -/
def extractLinks (doc : HtmlDoc) (baseUrl : String) : List DocLink :=
  doc.anchors.filterMap (fun a =>
    let href := strTrim a.href
    let text := strTrim a.text
    if href = "" || strStartsWith href "#" || strStartsWith href "javascript:" ||
       strStartsWith href "mailto:" || strStartsWith href "tel:" then none
    else
      match jsUrlResolve href baseUrl with
      | none => none
      | some fullUrl =>
        if isSameDomain fullUrl baseUrl then
          some { url := fullUrl, text := if text = "" then fullUrl else text }
        else none)

/-- Per-request mutable state of the simplified server: the visited URL
set (insertion ordered) and the log of page fetches actually started, in
order. -/
structure CrawlState where
  visited : List String
  log : List String
deriving DecidableEq

/-- Set insertion on the insertion-ordered visited list. -/
def insertU (v : List String) (u : String) : List String :=
  if u ∈ v then v else v ++ [u]

/-- Model of the child loop shared verbatim by the axios path (lines 194
to 211) and the puppeteer path (lines 460 to 477): for each candidate link
not yet visited, fetch it with fetchSimpleContent; on success append the
page with empty links and only then add the URL to the visited set; on
failure move on. -/
def fetchChildren (env : FetchEnv) : List DocLink → CrawlState → List PageResult × CrawlState
  | [], st => ([], st)
  | l :: rest, st =>
    if l.url ∈ st.visited then fetchChildren env rest st
    else
      let st1 : CrawlState := { st with log := st.log ++ [l.url] }
      match fetchSimpleContent env l.url with
      | some c =>
        let st2 : CrawlState := { st1 with visited := insertU st1.visited l.url }
        let (ps, st3) := fetchChildren env rest st2
        ({ url := l.url, title := none, content := c, links := [] } :: ps, st3)
      | none => fetchChildren env rest st1

/-- Cleaning applied to the evaluated main content on the puppeteer path:
the evaluate trims the text, the caller collapses whitespace and trims
again, then truncates with the marker. -/
def puppeteerCleanContent (mainText : String) : String :=
  ⟨truncateTextL (trimL (collapseWsL (trimL mainText.data)))⟩

/-- Anchor filter of the puppeteer evaluate: raw hrefs without trimming,
text defaulting to the href when empty after trimming. -/
def puppeteerEvalLinks (anchors : List RawAnchor) : List DocLink :=
  anchors.filterMap (fun a =>
    if a.href = "" || strStartsWith a.href "#" || strStartsWith a.href "javascript:" ||
       strStartsWith a.href "mailto:" || strStartsWith a.href "tel:" then none
    else some { url := a.href, text := if strTrim a.text = "" then a.href else strTrim a.text })

/-- Resolution and domain filter applied by fetchWithPuppeteer to the
evaluated links. -/
def puppeteerResolveLinks (links : List DocLink) (url : String) : List DocLink :=
  links.filterMap (fun l =>
    match jsUrlResolve l.url url with
    | none => none
    | some fullUrl =>
      if isSameDomain fullUrl url then some { url := fullUrl, text := l.text } else none)

/-- Model of DocsFetchServer.fetchWithPuppeteer: evaluate the rendered
page, clean and truncate the main content, resolve and domain-filter the
links; at depth one or with no links return the single page, otherwise
fetch up to three children; a navigation failure is rethrown to the
caller. -/
def fetchWithPuppeteer (env : FetchEnv) (url : String) (maxDepth : Nat)
    (st : CrawlState) : Except String ExplorationResult × CrawlState :=
  match env.puppeteer url with
  | .failure msg => (.error msg, st)
  | .page p =>
    let truncatedContent := puppeteerCleanContent p.mainText
    let links := puppeteerResolveLinks (puppeteerEvalLinks p.anchors) url
    if maxDepth ≤ 1 ∨ links = [] then
      (.ok { rootUrl := url, explorationDepth := maxDepth, pagesExplored := 1,
             content := [{ url := url, title := none, content := truncatedContent,
                           links := links.take 10 }], error := none }, st)
    else
      let (children, st2) := fetchChildren env (links.take 3) st
      (.ok { rootUrl := url, explorationDepth := maxDepth,
             pagesExplored := 1 + children.length,
             content := { url := url, title := none, content := truncatedContent,
                          links := links.take 10 } :: children, error := none }, st2)

/-- Model of DocsFetchServer.fetchContent of the simplified server.  The
URL enters the visited set on entry (line 159).  On axios acceptance the
result is built from the extracted text and links, exploring up to five
children when the depth exceeds one.  Otherwise the puppeteer fallback
runs; if it throws, the outer catch returns a partial result whose
pagesExplored is the visited-set size, with empty content and the error
message; since the visited set always holds at least the root, the rethrow
branch of the catch is unreachable. -/
def fetchContent (env : FetchEnv) (url : String) (maxDepth : Nat)
    (st0 : CrawlState) : ExplorationResult × CrawlState :=
  let st : CrawlState := { visited := insertU st0.visited url, log := st0.log ++ [url] }
  match axiosAccepted (env.axiosResp url) with
  | some d =>
    let mainContent := extractTextContent d.raw
    let links := extractLinks d url
    if maxDepth ≤ 1 then
      ({ rootUrl := url, explorationDepth := maxDepth, pagesExplored := 1,
         content := [{ url := url, title := none, content := mainContent,
                       links := links.take 10 }], error := none }, st)
    else
      let (children, st2) := fetchChildren env (links.take 5) st
      ({ rootUrl := url, explorationDepth := maxDepth,
         pagesExplored := 1 + children.length,
         content := { url := url, title := none, content := mainContent,
                      links := links.take 10 } :: children, error := none }, st2)
  | none =>
    match fetchWithPuppeteer env url maxDepth st with
    | (.ok r, st2) => (r, st2)
    | (.error msg, st2) =>
      ({ rootUrl := url, explorationDepth := maxDepth,
         pagesExplored := st2.visited.length, content := [],
         error := some msg }, st2)

/-- Strategy attempts visible at the fetch boundary. -/
inductive StrategyAttempt where
  | lightweight (timeoutMs : Nat) (userAgent : String)
  | rendered
deriving DecidableEq

/-- Sequence of fetch strategies fetchContent attempts for the root URL,
in order: always the axios request first (10 second timeout, Chrome
User-Agent header, lines 164 to 169), then the puppeteer fallback exactly
when the axios response is not accepted (thrown error, non-200 status,
non-string or empty body). -/
def rootFetchTrace (env : FetchEnv) (url : String) : List StrategyAttempt :=
  match axiosAccepted (env.axiosResp url) with
  | some _ => [.lightweight 10000 chromeUA]
  | none => [.lightweight 10000 chromeUA, .rendered]

/-- Model of the fetch_doc_content handler of the simplified server: the
fetch races a 45 second timer; timedOut records which side of the race
settles first.  On timeout the handler returns the isError response with
the fixed message, discarding the fetch; otherwise it returns the fetch
result as a success.  fetchContent itself never rejects, since its outer
catch always finds a non-empty visited set. -/
def handleToolCall (env : FetchEnv) (url : String) (depth : Nat)
    (timedOut : Bool) : ToolResponse :=
  if timedOut then .failure "Error fetching content: Operation timed out before completion"
  else .success (fetchContent env url depth { visited := [], log := [] }).1

/-! Layer 6: the ContentExtractor (content-extractor.ts), used by the
recursive server. -/

/-- Scored link of ExtractedContent (types/index.ts). -/
structure ScoredLink where
  url : String
  text : String
  relevance : ℚ
deriving DecidableEq

/-- ExtractedContent returned by ContentExtractor.extractContent
(types/index.ts). -/
structure ExtractedContent where
  mainContent : String
  relatedLinks : List ScoredLink
deriving DecidableEq

/-- Anchor as seen inside the extractContent evaluate: raw href attribute,
text content, and whether the selected main-content element contains the
anchor element. -/
structure DomAnchor where
  href : String
  text : String
  inMain : Bool
deriving DecidableEq

/-- Rendered document as seen by the ContentExtractor evaluate, abstracted
past the selector scan: the text content of the element the selector loop
selects, the text content of the body (used by the hasContent check), and
the anchors in document order. -/
structure DomPage where
  mainText : String
  bodyText : String
  anchors : List DomAnchor
deriving DecidableEq

/-- Informative word list of the relevance heuristic (line 85 of the
content extractor). -/
def informativeWords : List String :=
  ["guide", "docs", "tutorial", "reference", "example", "api", "learn", "how to"]

/-- Relevance accumulation of extractContent, following the source step by
step: start at zero, add the text-length term capped at five, add five
when the selected main element contains the link, then loop over the
informative words adding two for each word the lowercased text includes. -/
def anchorRelevance (a : DomAnchor) : ℚ :=
  let r0 : ℚ := 0
  let r1 : ℚ := r0 + min ((a.text.length : ℚ) / 10) 5
  let r2 : ℚ := if a.inMain then r1 + 5 else r1
  informativeWords.foldl
    (fun acc w => if strContains (strToLower a.text) w then acc + 2 else acc) r2

/-- Model of ContentExtractor.extractContent: the main content is the
cleaned text of the selected element; the related links are the anchors
surviving the href filter, with trimmed text and the relevance score, in
document order.  No truncation is applied on this path. -/
def extractContent (p : DomPage) : ExtractedContent :=
  { mainContent := cleanText p.mainText
  , relatedLinks := p.anchors.filterMap (fun a =>
      if a.href = "" || strStartsWith a.href "#" || strStartsWith a.href "javascript:" ||
         strStartsWith a.href "mailto:" || strStartsWith a.href "tel:" then none
      else some { url := a.href, text := strTrim a.text, relevance := anchorRelevance a }) }

/-- Relevance formula as the specification words it: the saturating
text-richness term, a bonus of five for links inside the selected
main-content element, and a bonus of two for each term of the informative
word list found case-insensitively in the link text. -/
def specRelevance (a : DomAnchor) : ℚ :=
  min ((a.text.length : ℚ) / 10) 5 + (if a.inMain then 5 else 0) +
    2 * ((informativeWords.filter (fun w => strContains (strToLower a.text) w)).length : ℚ)

/-- Link pipeline as the specification words it, for comparison with
extractContent. -/
def specLinks (p : DomPage) : List ScoredLink :=
  p.anchors.filterMap (fun a =>
    if a.href = "" || strStartsWith a.href "#" || strStartsWith a.href "javascript:" ||
       strStartsWith a.href "mailto:" || strStartsWith a.href "tel:" then none
    else some { url := a.href, text := strTrim a.text, relevance := specRelevance a })

/-! Layer 7: the recursive server, the second implementation in
server.ts. -/

/-- Outcome of the puppeteer navigation of fetchSinglePage: a failure
after the bounded retries (browser launch or navigation), or a response
with an HTTP status and the rendered document. -/
inductive NavOutcome where
  | failed (msg : String)
  | status (code : Nat) (p : DomPage)

/-- Deterministic request environment of the recursive server. -/
structure RecEnv where
  nav : String → NavOutcome

/-- Model of DocsFetchServer.fetchSinglePage of the recursive server:
reject invalid URLs, navigate (launch and navigation retries folded into
the environment outcome), reject non-200 statuses, reject pages whose
trimmed body text has at most 100 characters, extract the content, and
reject empty main content.  Thrown McpErrors appear as error values. -/
def fetchSinglePage (env : RecEnv) (url : String) : Except String ExtractedContent :=
  if ¬ isValidUrl url then .error "Invalid URL provided"
  else match env.nav url with
    | .failed msg => .error msg
    | .status code p =>
      if code ≠ 200 then .error ("Failed to load page: HTTP " ++ toString code)
      else if (strTrim p.bodyText).length ≤ 100 then .error "Page appears to be empty"
      else
        let c := extractContent p
        if strTrim c.mainContent = "" then .error "Failed to extract content"
        else .ok c

/-- Boilerplate link-text filter of fetchDocContentRecursive: whole-string
match of the lowercased text against common navigation labels. -/
def isBoilerplateText (t : String) : Bool :=
  (["home", "contact", "about", "login", "sign up", "register",
    "search", "privacy", "terms", "cookies"] : List String).contains (strToLower t)

/-- Stable descending insertion by relevance: an element is placed before
the first element whose relevance does not exceed it, so equal scores keep
document order. -/
def insertByRelevance (x : ScoredLink) : List ScoredLink → List ScoredLink
  | [] => [x]
  | y :: ys => if y.relevance ≤ x.relevance then x :: y :: ys else y :: insertByRelevance x ys

/-- Stable sort by descending relevance, the semantics of the stable
Array sort with the comparator subtracting relevance values. -/
def sortByRelevanceDesc : List ScoredLink → List ScoredLink
  | [] => []
  | x :: xs => insertByRelevance x (sortByRelevanceDesc xs)

/-- Link selection of fetchDocContentRecursive (lines 685 to 696): drop
boilerplate labels, sort by descending relevance, keep the ten most
relevant, strip the score. -/
def sortedLinksOf (c : ExtractedContent) : List DocLink :=
  ((sortByRelevanceDesc (c.relatedLinks.filter (fun l => !isBoilerplateText l.text))).take 10).map
    (fun l => { url := l.url, text := l.text })

/-- Model of the page-title derivation of fetchDocContentRecursive (lines
698 to 713): the last non-empty path segment of the URL with underscores
and dashes turned into spaces, a trailing extension removed, camel-case
boundaries spaced, and the result trimmed; a URL parse failure leaves the
title empty. -/
def titleFromUrl (url : String) : String :=
  match parseUrl url with
  | none => ""
  | some u =>
    let segs := (splitOnCharL '/' u.path.data).filter (fun s => !s.isEmpty)
    match segs.getLast? with
    | none => ""
    | some seg =>
      strTrim ⟨camelSpaceL (stripExtL (seg.map (fun c => if c = '_' || c = '-' then ' ' else c)))⟩

/-- Per-request state of the recursive traversal: the visited set and the
log of committed page fetches, in order.  The source inserts into the
visited set at the moment a branch commits to fetching the URL, before the
fetch starts, so both lists are extended together. -/
structure RecState where
  visited : List String
  log : List String
deriving DecidableEq

/-- Child dispatch loop of fetchDocContentRecursive (lines 727 to 752):
for each selected link, resolve it, and when it is same-domain and
unvisited recurse into it one level deeper.  The source dispatches these
branches in groups of up to three awaited together; each branch runs
synchronously through its visited-set insertion before the next dispatch,
and the model serialises whole branches in dispatch order, the schedule
the single-threaded runtime realises for a deterministic environment. -/
def crawlChildren (recurse : String → RecState → List PageResult × RecState) :
    List DocLink → String → RecState → List PageResult × RecState
  | [], _, st => ([], st)
  | l :: rest, base, st =>
    match resolveUrl l.url base with
    | none => crawlChildren recurse rest base st
    | some fullUrl =>
      if isSameDomain fullUrl base ∧ fullUrl ∉ st.visited then
        let (r1, st1) := recurse fullUrl st
        let (r2, st2) := crawlChildren recurse rest base st1
        (r1 ++ r2, st2)
      else crawlChildren recurse rest base st

/-- Model of DocsFetchServer.fetchDocContentRecursive, parameterised by
the remaining depth budget (maxDepth minus currentDepth).  A zero budget
or an already visited URL contributes nothing; otherwise the URL is
committed to the visited set and the log, fetched, and its selected links
are recursed into while more than one level of budget remains; a fetch
error makes the branch contribute an empty result and the traversal
continues. -/
def fetchDocRec (env : RecEnv) : Nat → String → RecState → List PageResult × RecState
  | 0, _, st => ([], st)
  | b + 1, url, st =>
    if url ∈ st.visited then ([], st)
    else
      let st1 : RecState := { visited := st.visited ++ [url], log := st.log ++ [url] }
      match fetchSinglePage env url with
      | .error _ => ([], st1)
      | .ok c =>
        let sortedLinks := sortedLinksOf c
        let page : PageResult :=
          { url := url, title := some (titleFromUrl url), content := c.mainContent,
            links := sortedLinks }
        if 1 ≤ b then
          let (children, st2) := crawlChildren (fun u s => fetchDocRec env b u s) sortedLinks url st1
          (page :: children, st2)
        else ([page], st1)

/-- Entry point matching the source signature, with currentDepth starting
at zero; the guard currentDepth at least maxDepth is the zero-budget
case. -/
def fetchDocContentRecursive (env : RecEnv) (url : String) (maxDepth currentDepth : Nat)
    (st : RecState) : List PageResult × RecState :=
  fetchDocRec env (maxDepth - currentDepth) url st

/-- Model of the fetch_doc_content handler of the recursive server: the
traversal result is always wrapped in a success response whose
pagesExplored is the number of returned pages and which carries no error
field; the traversal never rejects (every fetch error is caught inside its
branch), so the isError branch of the handler is unreachable. -/
def handleToolCallRec (env : RecEnv) (url : String) (depth : Nat) : ToolResponse :=
  .success { rootUrl := url, explorationDepth := depth,
             pagesExplored := (fetchDocContentRecursive env url depth 0 { visited := [], log := [] }).1.length,
             content := (fetchDocContentRecursive env url depth 0 { visited := [], log := [] }).1,
             error := none }

/-! Layer 8: concrete request environments used to settle the claims. -/

/-- Environment for claim C1: the rendering engine fails on every URL. -/
def envC1Rec : RecEnv :=
  { nav := fun _ => .failed "net::ERR_CONNECTION_REFUSED" }

/-- Environment for claim C1, simplified server: both strategies fail. -/
def envC1Simp : FetchEnv :=
  { axiosResp := fun _ => .err, simpleResp := fun _ => .err,
    puppeteer := fun _ => .failure "net::ERR_CONNECTION_REFUSED" }

/-- Root document for claim C2. -/
def docC2 : HtmlDoc := { raw := "Hello world", anchors := [] }

/-- Environment for claim C2: the root resolves instantly on the fast
path, so any partial result lost to the timeout is visible. -/
def envC2 : FetchEnv :=
  { axiosResp := fun _ => .ok 200 (.str docC2), simpleResp := fun _ => .err,
    puppeteer := fun _ => .failure "unreachable" }

/-- Root URL for claim C3. -/
def rootC3 : String := "https://docs.example.com/"

/-- Root document for claim C3: five qualifying same-domain child links. -/
def docC3 : HtmlDoc :=
  { raw := "Index page"
  , anchors :=
      [ { href := "https://docs.example.com/p1", text := "Guide One" }
      , { href := "https://docs.example.com/p2", text := "Guide Two" }
      , { href := "https://docs.example.com/p3", text := "Guide Three" }
      , { href := "https://docs.example.com/p4", text := "Guide Four" }
      , { href := "https://docs.example.com/p5", text := "Guide Five" } ] }

/-- Environment for claim C3: children three and five fail to fetch, the
others succeed. -/
def envC3 : FetchEnv :=
  { axiosResp := fun u => if u = rootC3 then .ok 200 (.str docC3) else .err
  , simpleResp := fun u =>
      if u = "https://docs.example.com/p3" || u = "https://docs.example.com/p5" then .err
      else .ok 200 (.str { raw := "Child content", anchors := [] })
  , puppeteer := fun _ => .failure "unreachable" }

/-- Environment for the claim C3 counterexample: the root is unfetchable
by either strategy. -/
def envC3Down : FetchEnv :=
  { axiosResp := fun _ => .err, simpleResp := fun _ => .err,
    puppeteer := fun _ => .failure "net::ERR_NAME_NOT_RESOLVED" }

/-- Root document for claim C4: the same child URL appears twice among the
extracted links. -/
def docC4 : HtmlDoc :=
  { raw := "Dup page"
  , anchors :=
      [ { href := "https://example.com/dup", text := "First" }
      , { href := "https://example.com/dup", text := "Second" } ] }

/-- Environment for claim C4: the duplicated child URL always fails, so
the loop retries it. -/
def envC4 : FetchEnv :=
  { axiosResp := fun u => if u = "https://example.com/" then .ok 200 (.str docC4) else .err
  , simpleResp := fun _ => .err, puppeteer := fun _ => .failure "unreachable" }

/-- Root document for claim C5: the only outbound link is cross-domain. -/
def docC5 : HtmlDoc :=
  { raw := "Hub page", anchors := [ { href := "https://other.com/guide", text := "External Guide" } ] }

/-- Environment for claim C5, simplified server. -/
def envC5 : FetchEnv :=
  { axiosResp := fun u => if u = "https://root.com/" then .ok 200 (.str docC5) else .err
  , simpleResp := fun _ => .err, puppeteer := fun _ => .failure "unreachable" }

/-- Rendered page for claim C5, recursive server: one cross-domain anchor
inside the main content. -/
def pageC5 : DomPage :=
  { mainText := "Hub page with pointers elsewhere"
  , bodyText := ⟨List.replicate 150 'b'⟩
  , anchors := [ { href := "https://other.com/a", text := "API Guide", inMain := true } ] }

/-- Environment for claim C5, recursive server. -/
def envC5Rec : RecEnv :=
  { nav := fun u => if u = "https://root.com/" then .status 200 pageC5 else .failed "offsite" }

/-- Extracted content of the claim C5 page. -/
def extractedC5 : ExtractedContent := extractContent pageC5

/-- Rendered page for claim C6: the selected main element carries 10001
characters of text. -/
def pageC6 : DomPage :=
  { mainText := ⟨List.replicate 10001 'a'⟩
  , bodyText := ⟨List.replicate 10001 'a'⟩
  , anchors := [] }

/-- Environment for claim C6. -/
def envC6Rec : RecEnv := { nav := fun _ => .status 200 pageC6 }

/-- Over-long input for the claim C6 witness on the lightweight path. -/
def longC6 : String := ⟨List.replicate 10001 'b'⟩

/-- Rendered page for claim C7: three anchors with text lengths five,
fifty and five hundred, outside the main content, with no informative
words. -/
def pageC7 : DomPage :=
  { mainText := "Scores", bodyText := ""
  , anchors :=
      [ { href := "/a", text := ⟨List.replicate 5 'x'⟩, inMain := false }
      , { href := "/b", text := ⟨List.replicate 50 'x'⟩, inMain := false }
      , { href := "/c", text := ⟨List.replicate 500 'x'⟩, inMain := false } ] }

/-- Response body for the claim C8 counterexample: HTTP 200 with a textual
but empty body. -/
def docC8 : HtmlDoc := { raw := "", anchors := [] }

/-- Environment for the claim C8 counterexample. -/
def envC8 : FetchEnv :=
  { axiosResp := fun _ => .ok 200 (.str docC8), simpleResp := fun _ => .err,
    puppeteer := fun _ => .failure "unreachable" }

/-- Response body for the claim C8 witness: HTTP 200 with a non-empty
textual body. -/
def docC8w : HtmlDoc := { raw := "plain body", anchors := [] }

/-- Environment for the claim C8 witness. -/
def envC8w : FetchEnv :=
  { axiosResp := fun _ => .ok 200 (.str docC8w), simpleResp := fun _ => .err,
    puppeteer := fun _ => .failure "unreachable" }

/-- Root URL for claim C10. -/
def rootC10 : String := "https://example.com/"

/-- Root document for claim C10: one same-domain child link. -/
def docC10 : HtmlDoc :=
  { raw := "Root", anchors := [ { href := "https://example.com/child", text := "Child Guide" } ] }

/-- Environment for claim C10: the child fetch succeeds, so the returned
content has a genuine non-root entry. -/
def envC10 : FetchEnv :=
  { axiosResp := fun u => if u = rootC10 then .ok 200 (.str docC10) else .err
  , simpleResp := fun _ => .ok 200 (.str { raw := "Child body", anchors := [] })
  , puppeteer := fun _ => .failure "unreachable" }

/-! Layer 8b: derived character-list predicates used by the proofs. -/

/-- Presence of a closing angle bracket. -/
def hasGtB : List Char → Bool
  | [] => false
  | c :: cs => c = '>' || hasGtB cs

/-- Presence of an opening angle bracket with a closing bracket somewhere
after it; the tag regex can match exactly when this holds. -/
def hasLtGt : List Char → Bool
  | [] => false
  | c :: cs => if c = '<' then hasGtB cs else hasLtGt cs

/-- Every whitespace character is a plain space. -/
def allSpaceB (l : List Char) : Bool := l.all (fun c => !isJsWs c || c = ' ')

/-- No two adjacent whitespace characters. -/
def noAdjWsB : List Char → Bool
  | [] => true
  | [_] => true
  | a :: b :: t => (!(isJsWs a && isJsWs b)) && noAdjWsB (b :: t)

/-- The first character, when present, is not whitespace. -/
def headNotWsB : List Char → Bool
  | [] => true
  | c :: _ => !isJsWs c

/-- The last character, when present, is not whitespace. -/
def lastNotWsB : List Char → Bool
  | [] => true
  | [c] => !isJsWs c
  | _ :: c :: t => lastNotWsB (c :: t)

/-! Layer 9: helper lemmas about the string layer. -/

lemma toLowerAscii_shape (c d : Char) (h : toLowerAscii c = d) :
    d = c ∨ ('a' ≤ d ∧ d ≤ 'z') := by
  unfold toLowerAscii at h
  by_cases hA : c = 'A'
  · rw [if_pos hA] at h; exact Or.inr (by rw [← h]; exact ⟨by decide, by decide⟩)
  rw [if_neg hA] at h
  by_cases hB : c = 'B'
  · rw [if_pos hB] at h; exact Or.inr (by rw [← h]; exact ⟨by decide, by decide⟩)
  rw [if_neg hB] at h
  by_cases hC : c = 'C'
  · rw [if_pos hC] at h; exact Or.inr (by rw [← h]; exact ⟨by decide, by decide⟩)
  rw [if_neg hC] at h
  by_cases hD : c = 'D'
  · rw [if_pos hD] at h; exact Or.inr (by rw [← h]; exact ⟨by decide, by decide⟩)
  rw [if_neg hD] at h
  by_cases hE : c = 'E'
  · rw [if_pos hE] at h; exact Or.inr (by rw [← h]; exact ⟨by decide, by decide⟩)
  rw [if_neg hE] at h
  by_cases hF : c = 'F'
  · rw [if_pos hF] at h; exact Or.inr (by rw [← h]; exact ⟨by decide, by decide⟩)
  rw [if_neg hF] at h
  by_cases hG : c = 'G'
  · rw [if_pos hG] at h; exact Or.inr (by rw [← h]; exact ⟨by decide, by decide⟩)
  rw [if_neg hG] at h
  by_cases hH : c = 'H'
  · rw [if_pos hH] at h; exact Or.inr (by rw [← h]; exact ⟨by decide, by decide⟩)
  rw [if_neg hH] at h
  by_cases hI : c = 'I'
  · rw [if_pos hI] at h; exact Or.inr (by rw [← h]; exact ⟨by decide, by decide⟩)
  rw [if_neg hI] at h
  by_cases hJ : c = 'J'
  · rw [if_pos hJ] at h; exact Or.inr (by rw [← h]; exact ⟨by decide, by decide⟩)
  rw [if_neg hJ] at h
  by_cases hK : c = 'K'
  · rw [if_pos hK] at h; exact Or.inr (by rw [← h]; exact ⟨by decide, by decide⟩)
  rw [if_neg hK] at h
  by_cases hL : c = 'L'
  · rw [if_pos hL] at h; exact Or.inr (by rw [← h]; exact ⟨by decide, by decide⟩)
  rw [if_neg hL] at h
  by_cases hM : c = 'M'
  · rw [if_pos hM] at h; exact Or.inr (by rw [← h]; exact ⟨by decide, by decide⟩)
  rw [if_neg hM] at h
  by_cases hN : c = 'N'
  · rw [if_pos hN] at h; exact Or.inr (by rw [← h]; exact ⟨by decide, by decide⟩)
  rw [if_neg hN] at h
  by_cases hO : c = 'O'
  · rw [if_pos hO] at h; exact Or.inr (by rw [← h]; exact ⟨by decide, by decide⟩)
  rw [if_neg hO] at h
  by_cases hP : c = 'P'
  · rw [if_pos hP] at h; exact Or.inr (by rw [← h]; exact ⟨by decide, by decide⟩)
  rw [if_neg hP] at h
  by_cases hQ : c = 'Q'
  · rw [if_pos hQ] at h; exact Or.inr (by rw [← h]; exact ⟨by decide, by decide⟩)
  rw [if_neg hQ] at h
  by_cases hR : c = 'R'
  · rw [if_pos hR] at h; exact Or.inr (by rw [← h]; exact ⟨by decide, by decide⟩)
  rw [if_neg hR] at h
  by_cases hS : c = 'S'
  · rw [if_pos hS] at h; exact Or.inr (by rw [← h]; exact ⟨by decide, by decide⟩)
  rw [if_neg hS] at h
  by_cases hT : c = 'T'
  · rw [if_pos hT] at h; exact Or.inr (by rw [← h]; exact ⟨by decide, by decide⟩)
  rw [if_neg hT] at h
  by_cases hU : c = 'U'
  · rw [if_pos hU] at h; exact Or.inr (by rw [← h]; exact ⟨by decide, by decide⟩)
  rw [if_neg hU] at h
  by_cases hV : c = 'V'
  · rw [if_pos hV] at h; exact Or.inr (by rw [← h]; exact ⟨by decide, by decide⟩)
  rw [if_neg hV] at h
  by_cases hW : c = 'W'
  · rw [if_pos hW] at h; exact Or.inr (by rw [← h]; exact ⟨by decide, by decide⟩)
  rw [if_neg hW] at h
  by_cases hX : c = 'X'
  · rw [if_pos hX] at h; exact Or.inr (by rw [← h]; exact ⟨by decide, by decide⟩)
  rw [if_neg hX] at h
  by_cases hY : c = 'Y'
  · rw [if_pos hY] at h; exact Or.inr (by rw [← h]; exact ⟨by decide, by decide⟩)
  rw [if_neg hY] at h
  by_cases hZ : c = 'Z'
  · rw [if_pos hZ] at h; exact Or.inr (by rw [← h]; exact ⟨by decide, by decide⟩)
  rw [if_neg hZ] at h
  exact Or.inl h.symm

lemma toLowerAscii_fix (c d : Char) (hd : ¬ ('a' ≤ d ∧ d ≤ 'z')) (h : toLowerAscii c = d) :
    c = d := by
  rcases toLowerAscii_shape c d h with hc | hc
  · exact hc.symm
  · exact absurd hc hd

lemma dropWhile_no_ws (l : List Char) (h : ∀ c ∈ l, isJsWs c = false) :
    l.dropWhile isJsWs = l := by
  cases l with
  | nil => rfl
  | cons c cs => simp [List.dropWhile_cons, h c (List.mem_cons_self c cs)]

lemma trimRight_no_ws (l : List Char) (h : ∀ c ∈ l, isJsWs c = false) :
    trimRight l = l := by
  induction l with
  | nil => rfl
  | cons c cs ih =>
    have hcs : trimRight cs = cs := ih (fun x hx => h x (List.mem_cons_of_mem c hx))
    have hc : isJsWs c = false := h c (List.mem_cons_self c cs)
    cases cs with
    | nil => simp [trimRight, hc]
    | cons d ds =>
      have hstep : trimRight (c :: d :: ds) =
          (match trimRight (d :: ds) with
            | [] => if isJsWs c = true then [] else [c]
            | r => c :: r) := rfl
      rw [hstep, hcs]

lemma trimL_no_ws (l : List Char) (h : ∀ c ∈ l, isJsWs c = false) : trimL l = l := by
  unfold trimL
  rw [dropWhile_no_ws l h, trimRight_no_ws l h]

lemma stripAux_no_lt (l : List Char) (h : ∀ c ∈ l, c ≠ '<') : stripAux l none = l := by
  induction l with
  | nil => rfl
  | cons c cs ih =>
    have hc : c ≠ '<' := h c (List.mem_cons_self c cs)
    simp only [stripAux, if_neg hc]
    exact congrArg (c :: ·) (ih (fun x hx => h x (List.mem_cons_of_mem c hx)))

lemma splitAtTok_no_lt (ts l : List Char) (h : ∀ c ∈ l, c ≠ '<') :
    splitAtTok ('<' :: ts) l = none := by
  induction l with
  | nil => rfl
  | cons c cs ih =>
    have hc : c ≠ '<' := h c (List.mem_cons_self c cs)
    have hm : matchesTokCI ('<' :: ts) (c :: cs) = false := by
      have hne : toLowerAscii c ≠ '<' := fun hh => hc (toLowerAscii_fix c '<' (by decide) hh)
      simp [matchesTokCI, hne]
    simp [splitAtTok, hm, ih (fun x hx => h x (List.mem_cons_of_mem c hx))]

lemma removeBlocksFuel_split_none (openTok closeTok : List Char) (fuel : Nat) (l : List Char)
    (h : splitAtTok openTok l = none) : removeBlocksFuel openTok closeTok fuel l = l := by
  cases fuel with
  | zero => rfl
  | succ n => simp [removeBlocksFuel, h]

lemma removeFirstBlock_split_none (openTok closeTok l : List Char)
    (h : splitAtTok openTok l = none) : removeFirstBlock openTok closeTok l = l := by
  simp [removeFirstBlock, h]

lemma nlCollapseFuel_no_nl (fuel : Nat) (l : List Char) (h : '\n' ∉ l) :
    nlCollapseFuel fuel l = l := by
  induction fuel generalizing l with
  | zero => rfl
  | succ n ih =>
    cases l with
    | nil => rfl
    | cons c cs =>
      have hc : c ≠ '\n' := fun hh => h (by simp [hh])
      have hcs : '\n' ∉ cs := fun hh => h (List.mem_cons_of_mem c hh)
      simp [nlCollapseFuel, hc, ih cs hcs]

lemma collapseGo_no_ws (b : Bool) (l : List Char) (h : ∀ c ∈ l, isJsWs c = false) :
    collapseGo b l = l := by
  induction l generalizing b with
  | nil => rfl
  | cons c cs ih =>
    have hc : isJsWs c = false := h c (List.mem_cons_self c cs)
    simp only [collapseGo, hc, Bool.false_eq_true, if_false]
    exact congrArg (c :: ·) (ih false (fun x hx => h x (List.mem_cons_of_mem c hx)))

lemma basicCleanL_plain (l : List Char) (h : ∀ c ∈ l, isJsWs c = false ∧ c ≠ '<') :
    basicCleanL l = l := by
  have hlt : ∀ c ∈ l, c ≠ '<' := fun c hc => (h c hc).2
  have hws : ∀ c ∈ l, isJsWs c = false := fun c hc => (h c hc).1
  have h1 : splitAtTok "<head>".data l = none := splitAtTok_no_lt "head>".data l hlt
  have h2 : splitAtTok "<script".data l = none := splitAtTok_no_lt "script".data l hlt
  have h3 : splitAtTok "<style".data l = none := splitAtTok_no_lt "style".data l hlt
  unfold basicCleanL removeBlocks stripTagsL collapseWsL
  rw [removeFirstBlock_split_none _ _ _ h1, removeBlocksFuel_split_none _ _ _ _ h2,
      removeBlocksFuel_split_none _ _ _ _ h3, stripAux_no_lt l hlt,
      collapseGo_no_ws false l hws, trimL_no_ws l hws]

lemma cleanTextL_plain (l : List Char) (h : ∀ c ∈ l, isJsWs c = false) :
    cleanTextL l = l := by
  have hnl : '\n' ∉ l := fun hh => absurd (h '\n' hh) (by decide)
  unfold cleanTextL collapseWsL nlCollapse
  rw [collapseGo_no_ws false l h, nlCollapseFuel_no_nl _ _ hnl, trimL_no_ws l h]

lemma replicate_plain (n : Nat) (c : Char) (h1 : isJsWs c = false) (h2 : c ≠ '<') :
    ∀ x ∈ List.replicate n c, isJsWs x = false ∧ x ≠ '<' := by
  intro x hx
  rw [List.eq_of_mem_replicate hx]
  exact ⟨h1, h2⟩

lemma hasGtB_eq_false (l : List Char) : hasGtB l = false ↔ '>' ∉ l := by
  induction l with
  | nil => simp [hasGtB]
  | cons c cs ih => simp [hasGtB, ih]; tauto

lemma hasGtB_append (a b : List Char) : hasGtB (a ++ b) = (hasGtB a || hasGtB b) := by
  induction a with
  | nil => simp [hasGtB]
  | cons c cs ih => simp [hasGtB, ih, Bool.or_assoc]

lemma hasGtB_reverse (l : List Char) : hasGtB l.reverse = hasGtB l := by
  induction l with
  | nil => rfl
  | cons c cs ih =>
    simp [List.reverse_cons, hasGtB_append, ih, hasGtB, Bool.or_comm]

lemma hasLtGt_cons_ne (c : Char) (cs : List Char) (h : c ≠ '<') :
    hasLtGt (c :: cs) = hasLtGt cs := by
  simp [hasLtGt, h]

lemma hasLtGt_cons_lt (cs : List Char) : hasLtGt ('<' :: cs) = hasGtB cs := by
  simp [hasLtGt]

lemma hasLtGt_of_no_gt (l : List Char) (h : hasGtB l = false) : hasLtGt l = false := by
  induction l with
  | nil => rfl
  | cons c cs ih =>
    have hcs : hasGtB cs = false := by
      have h2 : ¬ c = '>' ∧ hasGtB cs = false := by simpa [hasGtB] using h
      exact h2.2
    by_cases hc : c = '<'
    · subst hc; simp [hasLtGt_cons_lt, hcs]
    · rw [hasLtGt_cons_ne c cs hc]; exact ih hcs

lemma hasLtGt_tail (c : Char) (cs : List Char) (h : hasLtGt (c :: cs) = false) :
    hasLtGt cs = false := by
  by_cases hc : c = '<'
  · subst hc; rw [hasLtGt_cons_lt] at h; exact hasLtGt_of_no_gt cs h
  · rwa [hasLtGt_cons_ne c cs hc] at h

lemma hasLtGt_append_left (a b : List Char) (h : hasLtGt (a ++ b) = false) :
    hasLtGt a = false := by
  induction a with
  | nil => rfl
  | cons c cs ih =>
    by_cases hc : c = '<'
    · subst hc
      rw [List.cons_append, hasLtGt_cons_lt, hasGtB_append] at h
      rw [hasLtGt_cons_lt]
      exact (Bool.or_eq_false_iff.mp h).1
    · rw [List.cons_append, hasLtGt_cons_ne c _ hc] at h
      rw [hasLtGt_cons_ne c cs hc]
      exact ih h

lemma hasLtGt_append_right (a b : List Char) (h : hasLtGt (a ++ b) = false) :
    hasLtGt b = false := by
  induction a with
  | nil => exact h
  | cons c cs ih =>
    rw [List.cons_append] at h
    exact ih (hasLtGt_tail c _ h)

lemma stripAux_some_no_gt (l : List Char) (h : hasGtB l = false) :
    ∀ buf, stripAux l (some buf) = '<' :: buf.reverse ++ l := by
  induction l with
  | nil => intro buf; simp [stripAux]
  | cons c cs ih =>
    intro buf
    have h2 : ¬ c = '>' ∧ hasGtB cs = false := by simpa [hasGtB] using h
    have hcs : hasGtB cs = false := h2.2
    have hc : c ≠ '>' := h2.1
    rw [show stripAux (c :: cs) (some buf) = stripAux cs (some (c :: buf)) from by
      simp [stripAux, hc]]
    rw [ih hcs (c :: buf)]
    simp

lemma stripAux_ltgt (l : List Char) :
    hasLtGt (stripAux l none) = false ∧
    ∀ buf, hasGtB buf = false → hasLtGt (stripAux l (some buf)) = false := by
  induction l with
  | nil =>
    refine ⟨rfl, fun buf hb => ?_⟩
    rw [show stripAux [] (some buf) = '<' :: buf.reverse from rfl, hasLtGt_cons_lt,
        hasGtB_reverse]
    exact hb
  | cons c cs ih =>
    constructor
    · by_cases hc : c = '<'
      · subst hc
        rw [show stripAux ('<' :: cs) none = stripAux cs (some []) from by simp [stripAux]]
        exact ih.2 [] rfl
      · rw [show stripAux (c :: cs) none = c :: stripAux cs none from by simp [stripAux, hc],
            hasLtGt_cons_ne c _ hc]
        exact ih.1
    · intro buf hb
      by_cases hc : c = '>'
      · subst hc
        rw [show stripAux ('>' :: cs) (some buf) = ' ' :: stripAux cs none from by
          simp [stripAux]]
        rw [hasLtGt_cons_ne ' ' _ (by decide)]
        exact ih.1
      · rw [show stripAux (c :: cs) (some buf) = stripAux cs (some (c :: buf)) from by
          simp [stripAux, hc]]
        refine ih.2 (c :: buf) ?_
        simp [hasGtB, hb, hc]

lemma stripTagsL_ltgt (l : List Char) : hasLtGt (stripTagsL l) = false :=
  (stripAux_ltgt l).1

lemma stripTagsL_id (l : List Char) (h : hasLtGt l = false) : stripTagsL l = l := by
  induction l with
  | nil => rfl
  | cons c cs ih =>
    by_cases hc : c = '<'
    · subst hc
      rw [hasLtGt_cons_lt] at h
      unfold stripTagsL
      rw [show stripAux ('<' :: cs) none = stripAux cs (some []) from by simp [stripAux]]
      rw [stripAux_some_no_gt cs h []]
      simp
    · have hcs : hasLtGt cs = false := by rwa [hasLtGt_cons_ne c cs hc] at h
      unfold stripTagsL at ih ⊢
      rw [show stripAux (c :: cs) none = c :: stripAux cs none from by simp [stripAux, hc]]
      rw [ih hcs]

lemma collapseGo_mem (b : Bool) (l : List Char) (c : Char) (h : c ∈ collapseGo b l) :
    c = ' ' ∨ (c ∈ l ∧ isJsWs c = false) := by
  induction l generalizing b with
  | nil => simp [collapseGo] at h
  | cons d ds ih =>
    by_cases hd : isJsWs d
    · simp only [collapseGo, hd, if_pos] at h
      rcases b with _ | _
      · simp at h
        rcases h with h | h
        · exact Or.inl h
        · rcases ih true h with h' | h'
          · exact Or.inl h'
          · exact Or.inr ⟨List.mem_cons_of_mem d h'.1, h'.2⟩
      · rcases ih true h with h' | h'
        · exact Or.inl h'
        · exact Or.inr ⟨List.mem_cons_of_mem d h'.1, h'.2⟩
    · simp only [collapseGo, hd] at h
      simp at h
      rcases h with h | h
      · subst h
        exact Or.inr ⟨List.mem_cons_self c ds, by simpa using hd⟩
      · rcases ih false h with h' | h'
        · exact Or.inl h'
        · exact Or.inr ⟨List.mem_cons_of_mem d h'.1, h'.2⟩

lemma hasGtB_of_subset (l l' : List Char)
    (hsub : ∀ c ∈ l', c ∈ l) (h : hasGtB l = false) : hasGtB l' = false := by
  rw [hasGtB_eq_false] at h ⊢
  exact fun hm => h (hsub '>' hm)

lemma hasGtB_collapseGo (b : Bool) (l : List Char) (h : hasGtB l = false) :
    hasGtB (collapseGo b l) = false := by
  rw [hasGtB_eq_false] at h ⊢
  intro hm
  rcases collapseGo_mem b l '>' hm with h' | h'
  · exact absurd h' (by decide)
  · exact h h'.1

lemma hasLtGt_collapseGo (b : Bool) (l : List Char) (h : hasLtGt l = false) :
    hasLtGt (collapseGo b l) = false := by
  induction l generalizing b with
  | nil => cases b <;> rfl
  | cons c cs ih =>
    by_cases hc : isJsWs c
    · have hne : c ≠ '<' := by
        intro hh; subst hh; exact absurd hc (by decide)
      have htl : hasLtGt cs = false := by rwa [hasLtGt_cons_ne c cs hne] at h
      rcases b with _ | _
      · rw [show collapseGo false (c :: cs) = ' ' :: collapseGo true cs from by
          simp [collapseGo, hc]]
        rw [hasLtGt_cons_ne ' ' _ (by decide)]
        exact ih true htl
      · rw [show collapseGo true (c :: cs) = collapseGo true cs from by
          simp [collapseGo, hc]]
        exact ih true htl
    · have hws : isJsWs c = false := by simpa using hc
      by_cases hlt : c = '<'
      · subst hlt
        rw [hasLtGt_cons_lt] at h
        simp only [collapseGo, hws, Bool.false_eq_true, if_false]
        rw [hasLtGt_cons_lt]
        exact hasGtB_collapseGo false cs h
      · have htl : hasLtGt cs = false := by rwa [hasLtGt_cons_ne c cs hlt] at h
        simp only [collapseGo, hws, Bool.false_eq_true, if_false]
        rw [hasLtGt_cons_ne c _ hlt]
        exact ih false htl

lemma hasLtGt_dropWhile (p : Char → Bool) (l : List Char) (h : hasLtGt l = false) :
    hasLtGt (l.dropWhile p) = false := by
  induction l with
  | nil => exact h
  | cons c cs ih =>
    by_cases hp : p c
    · simp only [List.dropWhile_cons, hp, if_pos]
      exact ih (hasLtGt_tail c cs h)
    · simpa only [List.dropWhile_cons, hp, Bool.false_eq_true, if_false] using h

lemma trimRight_decomp (l : List Char) : ∃ s, l = trimRight l ++ s := by
  induction l with
  | nil => exact ⟨[], rfl⟩
  | cons c cs ih =>
    rcases ih with ⟨s, hs⟩
    cases htr : trimRight cs with
    | nil =>
      by_cases hc : isJsWs c
      · refine ⟨c :: cs, ?_⟩
        simp [trimRight, htr, hc]
      · refine ⟨cs, ?_⟩
        simp [trimRight, htr, hc]
    | cons d ds =>
      refine ⟨s, ?_⟩
      have hstep : trimRight (c :: cs) = c :: (d :: ds) := by
        rw [show trimRight (c :: cs) =
            (match trimRight cs with
              | [] => if isJsWs c = true then [] else [c]
              | r => c :: r) from rfl, htr]
      rw [hstep]
      rw [htr] at hs
      simpa using hs

lemma hasLtGt_trimRight (l : List Char) (h : hasLtGt l = false) :
    hasLtGt (trimRight l) = false := by
  rcases trimRight_decomp l with ⟨s, hs⟩
  exact hasLtGt_append_left _ s (by rwa [← hs])

lemma hasLtGt_trimL (l : List Char) (h : hasLtGt l = false) :
    hasLtGt (trimL l) = false :=
  hasLtGt_trimRight _ (hasLtGt_dropWhile _ l h)

lemma hasLtGt_take (n : Nat) (l : List Char) (h : hasLtGt l = false) :
    hasLtGt (l.take n) = false :=
  hasLtGt_append_left _ (l.drop n) (by rwa [List.take_append_drop])

lemma hasLtGt_append_no_gt (a m : List Char) (ha : hasLtGt a = false)
    (hm : hasLtGt m = false) (hgt : hasGtB m = false) : hasLtGt (a ++ m) = false := by
  induction a with
  | nil => exact hm
  | cons c cs ih =>
    by_cases hc : c = '<'
    · subst hc
      rw [hasLtGt_cons_lt] at ha
      rw [List.cons_append, hasLtGt_cons_lt, hasGtB_append, ha, hgt]
      rfl
    · rw [List.cons_append, hasLtGt_cons_ne c _ hc]
      exact ih (by rwa [hasLtGt_cons_ne c cs hc] at ha)

lemma matchesTokCI_length (tok l : List Char) (h : matchesTokCI tok l = true) :
    tok.length ≤ l.length := by
  induction tok generalizing l with
  | nil => simp
  | cons t ts ih =>
    cases l with
    | nil => simp [matchesTokCI] at h
    | cons c cs =>
      have h2 : toLowerAscii c = t ∧ matchesTokCI ts cs = true := by
        simpa [matchesTokCI] using h
      simpa using ih cs h2.2

lemma matchesTokCI_take (tok l : List Char) (h : matchesTokCI tok l = true) :
    matchesTokCI tok (l.take tok.length) = true := by
  induction tok generalizing l with
  | nil => rfl
  | cons t ts ih =>
    cases l with
    | nil => simp [matchesTokCI] at h
    | cons c cs =>
      have h2 : toLowerAscii c = t ∧ matchesTokCI ts cs = true := by
        simpa [matchesTokCI] using h
      simp only [List.length_cons, List.take_succ_cons]
      simpa [matchesTokCI, h2.1] using ih cs h2.2

lemma splitAtTok_decomp (tok l b a : List Char) (h : splitAtTok tok l = some (b, a)) :
    ∃ m, l = b ++ m ++ a ∧ matchesTokCI tok m = true ∧ m.length = tok.length := by
  induction l generalizing b with
  | nil =>
    by_cases he : tok.isEmpty
    · have htok : tok = [] := List.isEmpty_iff.mp he
      subst htok
      have : b = [] ∧ a = [] := by
        simpa [splitAtTok] using h
      rcases this with ⟨hb, ha⟩
      subst hb; subst ha
      exact ⟨[], rfl, rfl, rfl⟩
    · simp [splitAtTok, he] at h
  | cons c cs ih =>
    by_cases hm : matchesTokCI tok (c :: cs) = true
    · have hba : b = [] ∧ List.drop tok.length (c :: cs) = a := by
        simpa [splitAtTok, hm] using h
      rcases hba with ⟨hb, ha⟩
      subst hb; subst ha
      refine ⟨(c :: cs).take tok.length, ?_, matchesTokCI_take tok _ hm, ?_⟩
      · simp [List.take_append_drop]
      · rw [List.length_take]
        exact min_eq_left (matchesTokCI_length tok _ hm)
    · rw [show splitAtTok tok (c :: cs) =
          (match splitAtTok tok cs with
            | some (b, a) => some (c :: b, a)
            | none => none) from by simp [splitAtTok, hm]] at h
      cases hs : splitAtTok tok cs with
      | none => rw [hs] at h; simp at h
      | some pair =>
        rcases pair with ⟨b', a'⟩
        rw [hs] at h
        simp only [Option.some.injEq, Prod.mk.injEq] at h
        rcases h with ⟨hb, ha⟩
        subst ha
        rcases ih b' hs with ⟨m, hcs, hmt, hml⟩
        refine ⟨m, ?_, hmt, hml⟩
        rw [← hb]
        simp [hcs]

lemma mem_gt_of_matches (tok l : List Char) (h : matchesTokCI tok l = true)
    (hx : '>' ∈ tok) : '>' ∈ l := by
  induction tok generalizing l with
  | nil => simp at hx
  | cons t ts ih =>
    cases l with
    | nil => simp [matchesTokCI] at h
    | cons c cs =>
      have h2 : toLowerAscii c = t ∧ matchesTokCI ts cs = true := by
        simpa [matchesTokCI] using h
      rcases List.mem_cons.mp hx with hx | hx
      · have : c = '>' := toLowerAscii_fix c '>' (by decide) (hx ▸ h2.1)
        simp [this]
      · exact List.mem_cons_of_mem c (ih cs h2.2 hx)

lemma hasGtB_of_mem (l : List Char) (h : '>' ∈ l) : hasGtB l = true := by
  by_contra hc
  exact absurd h (hasGtB_eq_false l |>.mp (by simpa using hc))

lemma hasLtGt_of_close_match (ts m : List Char) (h : matchesTokCI ('<' :: ts) m = true)
    (hgt : '>' ∈ ts) : hasLtGt m = true := by
  cases m with
  | nil => simp [matchesTokCI] at h
  | cons c cs =>
    have h2 : toLowerAscii c = '<' ∧ matchesTokCI ts cs = true := by
      simpa [matchesTokCI] using h
    have hc : c = '<' := toLowerAscii_fix c '<' (by decide) h2.1
    subst hc
    rw [hasLtGt_cons_lt]
    exact hasGtB_of_mem cs (mem_gt_of_matches ts cs h2.2 hgt)

lemma removeBlocksFuel_id (openTok ts2 : List Char) (hgt : '>' ∈ ts2) :
    ∀ (fuel : Nat) (l : List Char), hasLtGt l = false →
      removeBlocksFuel openTok ('<' :: ts2) fuel l = l := by
  intro fuel l h
  cases fuel with
  | zero => rfl
  | succ n =>
    cases hs : splitAtTok openTok l with
    | none => simp [removeBlocksFuel, hs]
    | some pair =>
      rcases pair with ⟨b, rest⟩
      cases hs2 : splitAtTok ('<' :: ts2) rest with
      | none => simp [removeBlocksFuel, hs, hs2]
      | some pair2 =>
        rcases pair2 with ⟨b2, rest2⟩
        exfalso
        rcases splitAtTok_decomp _ _ _ _ hs with ⟨m, hl, _, _⟩
        have hrest : hasLtGt rest = false := by
          have h1 : hasLtGt (m ++ rest) = false := by
            refine hasLtGt_append_right b _ ?_
            rw [← List.append_assoc, ← hl]
            exact h
          exact hasLtGt_append_right m rest h1
        rcases splitAtTok_decomp _ _ _ _ hs2 with ⟨m2, hrest2, hmt2, _⟩
        have hm2 : hasLtGt m2 = false := by
          have h1 : hasLtGt (m2 ++ rest2) = false := by
            refine hasLtGt_append_right b2 _ ?_
            rw [← List.append_assoc, ← hrest2]
            exact hrest
          exact hasLtGt_append_left m2 rest2 h1
        rw [hasLtGt_of_close_match ts2 m2 hmt2 hgt] at hm2
        exact absurd hm2 (by simp)

lemma removeFirstBlock_id (openTok ts2 : List Char) (hgt : '>' ∈ ts2)
    (l : List Char) (h : hasLtGt l = false) :
    removeFirstBlock openTok ('<' :: ts2) l = l := by
  cases hs : splitAtTok openTok l with
  | none => simp [removeFirstBlock, hs]
  | some pair =>
    rcases pair with ⟨b, rest⟩
    cases hs2 : splitAtTok ('<' :: ts2) rest with
    | none => simp [removeFirstBlock, hs, hs2]
    | some pair2 =>
      rcases pair2 with ⟨b2, rest2⟩
      exfalso
      rcases splitAtTok_decomp _ _ _ _ hs with ⟨m, hl, _, _⟩
      have hrest : hasLtGt rest = false := by
        have h1 : hasLtGt (m ++ rest) = false := by
          refine hasLtGt_append_right b _ ?_
          rw [← List.append_assoc, ← hl]
          exact h
        exact hasLtGt_append_right m rest h1
      rcases splitAtTok_decomp _ _ _ _ hs2 with ⟨m2, hrest2, hmt2, _⟩
      have hm2 : hasLtGt m2 = false := by
        have h1 : hasLtGt (m2 ++ rest2) = false := by
          refine hasLtGt_append_right b2 _ ?_
          rw [← List.append_assoc, ← hrest2]
          exact hrest
        exact hasLtGt_append_left m2 rest2 h1
      rw [hasLtGt_of_close_match ts2 m2 hmt2 hgt] at hm2
      exact absurd hm2 (by simp)

lemma allSpaceB_iff (l : List Char) :
    allSpaceB l = true ↔ ∀ c ∈ l, isJsWs c = true → c = ' ' := by
  rw [allSpaceB, List.all_eq_true]
  constructor
  · intro h c hc hw
    have := h c hc
    simp [hw] at this
    exact this
  · intro h c hc
    by_cases hw : isJsWs c
    · simp [h c hc hw]
    · simp [hw]

lemma allSpaceB_of_subset (l l' : List Char)
    (hsub : ∀ c ∈ l', c ∈ l) (h : allSpaceB l = true) : allSpaceB l' = true := by
  rw [allSpaceB_iff] at h ⊢
  exact fun c hc hw => h c (hsub c hc) hw

lemma allSpaceB_append (a m : List Char) (ha : allSpaceB a = true)
    (hm : allSpaceB m = true) : allSpaceB (a ++ m) = true := by
  rw [allSpaceB_iff] at ha hm ⊢
  intro c hc hw
  rcases List.mem_append.mp hc with h | h
  · exact ha c h hw
  · exact hm c h hw

lemma collapseGo_allSpace (b : Bool) (l : List Char) : allSpaceB (collapseGo b l) = true := by
  rw [allSpaceB_iff]
  intro c hc hw
  rcases collapseGo_mem b l c hc with h | h
  · exact h
  · rw [h.2] at hw; exact absurd hw (by simp)

lemma noAdjWsB_tail (c : Char) (cs : List Char) (h : noAdjWsB (c :: cs) = true) :
    noAdjWsB cs = true := by
  cases cs with
  | nil => rfl
  | cons d ds =>
    have h2 : (!(isJsWs c && isJsWs d)) = true ∧ noAdjWsB (d :: ds) = true := by
      simpa [noAdjWsB, Bool.and_eq_true] using h
    exact h2.2

lemma noAdjWsB_cons_of_head (c : Char) (cs : List Char) (hc : isJsWs c = false)
    (h : noAdjWsB cs = true) : noAdjWsB (c :: cs) = true := by
  cases cs with
  | nil => rfl
  | cons d ds => simp [noAdjWsB, hc, h]

lemma noAdjWsB_cons_of_next (c : Char) (cs : List Char) (hhd : headNotWsB cs = true)
    (h : noAdjWsB cs = true) : noAdjWsB (c :: cs) = true := by
  cases cs with
  | nil => rfl
  | cons d ds =>
    have hd : isJsWs d = false := by simpa [headNotWsB] using hhd
    simp [noAdjWsB, hd, h]

lemma collapseGo_noAdj (l : List Char) :
    ∀ b : Bool, noAdjWsB (collapseGo b l) = true ∧
      (b = true → headNotWsB (collapseGo b l) = true) := by
  induction l with
  | nil => intro b; exact ⟨rfl, fun _ => rfl⟩
  | cons c cs ih =>
    intro b
    by_cases hc : isJsWs c
    · rcases b with _ | _
      · rw [show collapseGo false (c :: cs) = ' ' :: collapseGo true cs from by
          simp [collapseGo, hc]]
        refine ⟨?_, fun hb => by simp at hb⟩
        exact noAdjWsB_cons_of_next ' ' _ ((ih true).2 rfl) (ih true).1
      · rw [show collapseGo true (c :: cs) = collapseGo true cs from by
          simp [collapseGo, hc]]
        exact ⟨(ih true).1, fun _ => (ih true).2 rfl⟩
    · have hws : isJsWs c = false := by simpa using hc
      rw [show collapseGo b (c :: cs) = c :: collapseGo false cs from by
        simp [collapseGo, hws]]
      refine ⟨noAdjWsB_cons_of_head c _ hws (ih false).1, fun _ => ?_⟩
      simp [headNotWsB, hws]

lemma headNotWsB_cons_of (cs : List Char) (c : Char) (hc : isJsWs c = true)
    (h : noAdjWsB (c :: cs) = true) : headNotWsB cs = true := by
  cases cs with
  | nil => rfl
  | cons d ds =>
    have h2 : (!(isJsWs c && isJsWs d)) = true ∧ noAdjWsB (d :: ds) = true := by
      simpa [noAdjWsB, Bool.and_eq_true] using h
    have hor : isJsWs c = false ∨ isJsWs d = false := by simpa using h2.1
    have : isJsWs d = false := by
      rcases hor with h3 | h3
      · rw [hc] at h3; simp at h3
      · exact h3
    simp [headNotWsB, this]

lemma collapse_id (l : List Char) (hs : allSpaceB l = true) (hn : noAdjWsB l = true) :
    collapseGo false l = l ∧ (headNotWsB l = true → collapseGo true l = l) := by
  induction l with
  | nil => exact ⟨rfl, fun _ => rfl⟩
  | cons c cs ih =>
    have hstl : allSpaceB cs = true :=
      allSpaceB_of_subset _ _ (fun x hx => List.mem_cons_of_mem c hx) hs
    have hntl : noAdjWsB cs = true := noAdjWsB_tail c cs hn
    rcases ih hstl hntl with ⟨ih1, ih2⟩
    by_cases hc : isJsWs c
    · have hsp : c = ' ' := (allSpaceB_iff _).mp hs c (List.mem_cons_self c cs) hc
      have hhd : headNotWsB cs = true := headNotWsB_cons_of cs c hc hn
      constructor
      · rw [show collapseGo false (c :: cs) = ' ' :: collapseGo true cs from by
          simp [collapseGo, hc]]
        rw [ih2 hhd, hsp]
      · intro hh
        rw [show headNotWsB (c :: cs) = !isJsWs c from rfl, hc] at hh
        simp at hh
    · have hws : isJsWs c = false := by simpa using hc
      have hstep : ∀ b : Bool, collapseGo b (c :: cs) = c :: collapseGo false cs := by
        intro b; simp [collapseGo, hws]
      exact ⟨by rw [hstep false, ih1], fun _ => by rw [hstep true, ih1]⟩

lemma trimRight_mem (l : List Char) (c : Char) (h : c ∈ trimRight l) : c ∈ l := by
  induction l with
  | nil => simp [trimRight] at h
  | cons d ds ih =>
    cases htr : trimRight ds with
    | nil =>
      rw [show trimRight (d :: ds) =
          (match trimRight ds with
            | [] => if isJsWs d = true then [] else [d]
            | r => d :: r) from rfl, htr] at h
      by_cases hd : isJsWs d
      · simp [hd] at h
      · simp [hd] at h
        simp [h]
    | cons e es =>
      rw [show trimRight (d :: ds) =
          (match trimRight ds with
            | [] => if isJsWs d = true then [] else [d]
            | r => d :: r) from rfl, htr] at h
      rcases List.mem_cons.mp h with h | h
      · simp [h]
      · refine List.mem_cons_of_mem d (ih ?_)
        rw [htr]
        exact h

lemma noAdjWsB_dropWhile (p : Char → Bool) (l : List Char) (h : noAdjWsB l = true) :
    noAdjWsB (l.dropWhile p) = true := by
  induction l with
  | nil => rfl
  | cons c cs ih =>
    by_cases hp : p c
    · simp only [List.dropWhile_cons, hp, if_pos]
      exact ih (noAdjWsB_tail c cs h)
    · simpa only [List.dropWhile_cons, hp, Bool.false_eq_true, if_false] using h

lemma noAdjWsB_append_left (a b : List Char) (h : noAdjWsB (a ++ b) = true) :
    noAdjWsB a = true := by
  induction a with
  | nil => rfl
  | cons c cs ih =>
    cases cs with
    | nil => rfl
    | cons d ds =>
      have h2 : (!(isJsWs c && isJsWs d)) = true ∧ noAdjWsB ((d :: ds) ++ b) = true := by
        simpa [noAdjWsB, Bool.and_eq_true] using h
      have := ih h2.2
      simp [noAdjWsB, this]
      simpa using h2.1

lemma noAdjWsB_trimRight (l : List Char) (h : noAdjWsB l = true) :
    noAdjWsB (trimRight l) = true := by
  rcases trimRight_decomp l with ⟨s, hs⟩
  exact noAdjWsB_append_left _ s (by rwa [← hs])

lemma noAdjWsB_trimL (l : List Char) (h : noAdjWsB l = true) :
    noAdjWsB (trimL l) = true :=
  noAdjWsB_trimRight _ (noAdjWsB_dropWhile _ l h)

lemma noAdjWsB_take (n : Nat) (l : List Char) (h : noAdjWsB l = true) :
    noAdjWsB (l.take n) = true :=
  noAdjWsB_append_left _ (l.drop n) (by rwa [List.take_append_drop])

lemma noAdjWsB_append (a m : List Char) (ha : noAdjWsB a = true)
    (hm : noAdjWsB m = true) (hhm : headNotWsB m = true) : noAdjWsB (a ++ m) = true := by
  induction a with
  | nil => exact hm
  | cons c cs ih =>
    cases cs with
    | nil =>
      cases m with
      | nil => rfl
      | cons d ds =>
        have hd : isJsWs d = false := by simpa [headNotWsB] using hhm
        simpa [noAdjWsB, hd] using hm
    | cons e es =>
      have h2 : (!(isJsWs c && isJsWs e)) = true ∧ noAdjWsB (e :: es) = true := by
        simpa [noAdjWsB, Bool.and_eq_true] using ha
      have := ih h2.2
      simp only [List.cons_append] at this ⊢
      simp [noAdjWsB, this]
      simpa using h2.1

lemma dropWhile_headNotWs (l : List Char) : headNotWsB (l.dropWhile isJsWs) = true := by
  induction l with
  | nil => rfl
  | cons c cs ih =>
    by_cases hc : isJsWs c
    · simpa only [List.dropWhile_cons, hc, if_pos] using ih
    · have hws : isJsWs c = false := by simpa using hc
      simp [List.dropWhile_cons, hws, headNotWsB]

lemma trimRight_headNotWs (l : List Char) (h : headNotWsB l = true) :
    headNotWsB (trimRight l) = true := by
  rcases trimRight_decomp l with ⟨s, hs⟩
  cases htr : trimRight l with
  | nil => rfl
  | cons c cs =>
    rw [htr] at hs
    cases l with
    | nil => simp at hs
    | cons d ds =>
      have : d = c := by
        have h3 := hs
        simp at h3
        exact h3.1
      rw [← this] at htr ⊢
      simpa [headNotWsB] using h

lemma lastNotWsB_cons (c d : Char) (ds : List Char) :
    lastNotWsB (c :: d :: ds) = lastNotWsB (d :: ds) := rfl

lemma trimRight_lastNotWs (l : List Char) : lastNotWsB (trimRight l) = true := by
  induction l with
  | nil => rfl
  | cons c cs ih =>
    cases htr : trimRight cs with
    | nil =>
      rw [show trimRight (c :: cs) =
          (match trimRight cs with
            | [] => if isJsWs c = true then [] else [c]
            | r => c :: r) from rfl, htr]
      by_cases hc : isJsWs c
      · simp only [hc, if_true]; rfl
      · have hws : isJsWs c = false := by simpa using hc
        simp [hws, lastNotWsB]
    | cons d ds =>
      rw [show trimRight (c :: cs) =
          (match trimRight cs with
            | [] => if isJsWs c = true then [] else [c]
            | r => c :: r) from rfl, htr]
      rw [lastNotWsB_cons]
      rw [htr] at ih
      exact ih

lemma trimRight_id_of_last (l : List Char) (h : lastNotWsB l = true) : trimRight l = l := by
  induction l with
  | nil => rfl
  | cons c cs ih =>
    cases cs with
    | nil =>
      have hc : isJsWs c = false := by simpa [lastNotWsB] using h
      simp [trimRight, hc]
    | cons d ds =>
      have hcs : trimRight (d :: ds) = d :: ds := ih (by rwa [lastNotWsB_cons] at h)
      rw [show trimRight (c :: d :: ds) =
          (match trimRight (d :: ds) with
            | [] => if isJsWs c = true then [] else [c]
            | r => c :: r) from rfl, hcs]

lemma trim_eq_self (l : List Char) (h1 : headNotWsB l = true) (h2 : lastNotWsB l = true) :
    trimL l = l := by
  have hdrop : l.dropWhile isJsWs = l := by
    cases l with
    | nil => rfl
    | cons c cs =>
      have hc : isJsWs c = false := by simpa [headNotWsB] using h1
      simp [List.dropWhile_cons, hc]
  rw [trimL, hdrop, trimRight_id_of_last l h2]

lemma trimL_headNotWs (l : List Char) : headNotWsB (trimL l) = true :=
  trimRight_headNotWs _ (dropWhile_headNotWs l)

lemma trimL_lastNotWs (l : List Char) : lastNotWsB (trimL l) = true :=
  trimRight_lastNotWs _

lemma trimL_mem (l : List Char) (c : Char) (h : c ∈ trimL l) : c ∈ l := by
  have h1 := trimRight_mem _ c h
  exact (List.dropWhile_sublist isJsWs).subset h1

lemma headNotWsB_append (a m : List Char) (ha : headNotWsB a = true) (hne : a ≠ []) :
    headNotWsB (a ++ m) = true := by
  cases a with
  | nil => exact absurd rfl hne
  | cons c cs => simpa [headNotWsB] using ha

lemma headNotWsB_take (n : Nat) (l : List Char) (h : headNotWsB l = true) :
    headNotWsB (l.take n) = true := by
  cases l with
  | nil => simp [headNotWsB]
  | cons c cs =>
    cases n with
    | zero => rfl
    | succ m => simpa [headNotWsB, List.take_succ_cons] using h

lemma lastNotWsB_append (a m : List Char) (hm : lastNotWsB m = true) (hne : m ≠ []) :
    lastNotWsB (a ++ m) = true := by
  induction a with
  | nil => exact hm
  | cons c cs ih =>
    cases hX : cs ++ m with
    | nil =>
      rcases List.append_eq_nil.mp hX with ⟨_, h2⟩
      exact absurd h2 hne
    | cons x xs =>
      have : lastNotWsB (c :: x :: xs) = lastNotWsB (x :: xs) := rfl
      rw [List.cons_append, hX, this, ← hX]
      exact ih

lemma trim_collapse_strip_props (x : List Char) :
    hasLtGt (trimL (collapseWsL (stripTagsL x))) = false ∧
    allSpaceB (trimL (collapseWsL (stripTagsL x))) = true ∧
    noAdjWsB (trimL (collapseWsL (stripTagsL x))) = true ∧
    headNotWsB (trimL (collapseWsL (stripTagsL x))) = true ∧
    lastNotWsB (trimL (collapseWsL (stripTagsL x))) = true := by
  refine ⟨?_, ?_, ?_, trimL_headNotWs _, trimL_lastNotWs _⟩
  · exact hasLtGt_trimL _ (hasLtGt_collapseGo false _ (stripTagsL_ltgt x))
  · exact allSpaceB_of_subset _ _ (fun c hc => trimL_mem _ c hc) (collapseGo_allSpace false _)
  · exact noAdjWsB_trimL _ ((collapseGo_noAdj _ false).1)

lemma basicClean_props (l : List Char) :
    hasLtGt (basicCleanL l) = false ∧ allSpaceB (basicCleanL l) = true ∧
    noAdjWsB (basicCleanL l) = true ∧ headNotWsB (basicCleanL l) = true ∧
    lastNotWsB (basicCleanL l) = true :=
  trim_collapse_strip_props _

lemma clean_fix (u : List Char) (h1 : hasLtGt u = false) (h2 : allSpaceB u = true)
    (h3 : noAdjWsB u = true) (h4 : headNotWsB u = true) (h5 : lastNotWsB u = true) :
    basicCleanL u = u := by
  have e1 : removeFirstBlock "<head>".data "</head>".data u = u :=
    removeFirstBlock_id "<head>".data "/head>".data (by decide) u h1
  have e2 : removeBlocksFuel "<script".data "</script>".data u.length u = u :=
    removeBlocksFuel_id "<script".data "/script>".data (by decide) u.length u h1
  have e3 : removeBlocksFuel "<style".data "</style>".data u.length u = u :=
    removeBlocksFuel_id "<style".data "/style>".data (by decide) u.length u h1
  unfold basicCleanL removeBlocks
  rw [e1, e2, e3, stripTagsL_id u h1]
  have e5 : collapseWsL u = u := (collapse_id u h2 h3).1
  rw [e5, trim_eq_self u h4 h5]

lemma truncate_props (t : List Char) (h1 : hasLtGt t = false) (h2 : allSpaceB t = true)
    (h3 : noAdjWsB t = true) (h4 : headNotWsB t = true) (h5 : lastNotWsB t = true) :
    hasLtGt (truncateTextL t) = false ∧ allSpaceB (truncateTextL t) = true ∧
    noAdjWsB (truncateTextL t) = true ∧ headNotWsB (truncateTextL t) = true ∧
    lastNotWsB (truncateTextL t) = true := by
  unfold truncateTextL
  by_cases hlen : 10000 < t.length
  · simp only [hlen, if_pos]
    have htake : (t.take 10000) ≠ [] := by
      apply List.ne_nil_of_length_pos
      rw [List.length_take]
      omega
    refine ⟨?_, ?_, ?_, ?_, ?_⟩
    · exact hasLtGt_append_no_gt _ _ (hasLtGt_take 10000 t h1) (by decide) (by decide)
    · exact allSpaceB_append _ _
        (allSpaceB_of_subset _ _ (fun c hc => (List.take_sublist 10000 t).subset hc) h2)
        (by decide)
    · exact noAdjWsB_append _ _ (noAdjWsB_take 10000 t h3) (by decide) (by decide)
    · exact headNotWsB_append _ _ (headNotWsB_take 10000 t h4) htake
    · exact lastNotWsB_append _ _ (by decide) (by decide)
  · simp only [hlen, if_neg, ite_false]
    exact ⟨h1, h2, h3, h4, h5⟩

lemma truncate_idem (t : List Char) :
    truncateTextL (truncateTextL t) = truncateTextL t := by
  by_cases hlen : 10000 < t.length
  · have hu : truncateTextL t = t.take 10000 ++ truncMarker.data := by
      unfold truncateTextL; simp only [hlen, if_pos]
    have hlen2 : (t.take 10000).length = 10000 := by
      rw [List.length_take]; exact min_eq_left (le_of_lt hlen)
    have hulen : 10000 < (t.take 10000 ++ truncMarker.data).length := by
      rw [List.length_append, hlen2]
      norm_num [truncMarker]
    rw [hu]
    unfold truncateTextL
    simp only [hulen, if_pos]
    rw [List.take_left' hlen2]
  · have hu : truncateTextL t = t := by
      unfold truncateTextL; simp only [hlen, if_neg, ite_false]
    rw [hu, hu]

lemma extTC_idem_list (l : List Char) :
    truncateTextL (basicCleanL (truncateTextL (basicCleanL l))) =
      truncateTextL (basicCleanL l) := by
  obtain ⟨p1, p2, p3, p4, p5⟩ := basicClean_props l
  obtain ⟨q1, q2, q3, q4, q5⟩ :=
    truncate_props (basicCleanL l) p1 p2 p3 p4 p5
  rw [clean_fix _ q1 q2 q3 q4 q5]
  exact truncate_idem _

lemma extractTextContent_idem (s : String) :
    extractTextContent (extractTextContent s) = extractTextContent s := by
  show (⟨truncateTextL (basicCleanL (truncateTextL (basicCleanL s.data)))⟩ : String) =
    ⟨truncateTextL (basicCleanL s.data)⟩
  rw [extTC_idem_list s.data]

lemma collapseGo_no_nl (b : Bool) (l : List Char) : '\n' ∉ collapseGo b l := by
  intro h
  rcases collapseGo_mem b l '\n' h with h' | h'
  · exact absurd h' (by decide)
  · exact absurd h'.2 (by decide)

lemma cleanTextL_collapse (l : List Char) : cleanTextL l = trimL (collapseWsL l) := by
  unfold cleanTextL nlCollapse
  rw [nlCollapseFuel_no_nl (collapseWsL l).length (collapseWsL l) (collapseGo_no_nl false l)]

lemma cleanTextL_idem_list (l : List Char) : cleanTextL (cleanTextL l) = cleanTextL l := by
  rw [cleanTextL_collapse l]
  have hs : allSpaceB (trimL (collapseWsL l)) = true :=
    allSpaceB_of_subset _ _ (fun c hc => trimL_mem _ c hc) (collapseGo_allSpace false _)
  have hn : noAdjWsB (trimL (collapseWsL l)) = true :=
    noAdjWsB_trimL _ ((collapseGo_noAdj _ false).1)
  have hnl : '\n' ∉ trimL (collapseWsL l) := by
    intro h
    exact collapseGo_no_nl false l (trimL_mem _ '\n' h)
  set t := trimL (collapseWsL l) with ht
  unfold cleanTextL nlCollapse
  rw [show collapseWsL t = t from (collapse_id t hs hn).1]
  rw [nlCollapseFuel_no_nl t.length t hnl]
  rw [trim_eq_self t (by rw [ht]; exact trimL_headNotWs _) (by rw [ht]; exact trimL_lastNotWs _)]

lemma cleanText_idem (s : String) : cleanText (cleanText s) = cleanText s := by
  show (⟨cleanTextL (cleanTextL s.data)⟩ : String) = ⟨cleanTextL s.data⟩
  rw [cleanTextL_idem_list s.data]

lemma insertU_mem_of (v : List String) (u x : String) (h : x ∈ v) : x ∈ insertU v u := by
  unfold insertU
  by_cases hu : u ∈ v
  · simp only [hu, if_true]
    exact h
  · simp only [hu, if_false]
    exact List.mem_append.mpr (Or.inl h)

lemma insertU_self (v : List String) (u : String) : u ∈ insertU v u := by
  unfold insertU
  by_cases hu : u ∈ v
  · rw [if_pos hu]
    exact hu
  · simp [hu]

lemma fetchChildren_links_empty (env : FetchEnv) (links : List DocLink) (st : CrawlState) :
    ((fetchChildren env links st).1).all (fun p => p.links.isEmpty) = true := by
  induction links generalizing st with
  | nil => rfl
  | cons l rest ih =>
    by_cases hv : l.url ∈ st.visited
    · simp only [fetchChildren, if_pos hv]
      exact ih st
    · simp only [fetchChildren, if_neg hv]
      cases hf : fetchSimpleContent env l.url with
      | some c =>
        rcases hfc : fetchChildren env rest
            { visited := insertU st.visited l.url, log := st.log ++ [l.url] } with ⟨ps, st3⟩
        have := ih { visited := insertU st.visited l.url, log := st.log ++ [l.url] }
        rw [hfc] at this
        simp [hfc, this]
      | none => exact ih _

lemma fetchChildren_spec (env : FetchEnv) (links : List DocLink) (st : CrawlState) :
    (((fetchChildren env links st).1).map PageResult.url).Nodup ∧
    (∀ p ∈ (fetchChildren env links st).1, p.url ∉ st.visited) := by
  induction links generalizing st with
  | nil => exact ⟨List.nodup_nil, by simp [fetchChildren]⟩
  | cons l rest ih =>
    by_cases hv : l.url ∈ st.visited
    · simp only [fetchChildren, if_pos hv]
      exact ih st
    · simp only [fetchChildren, if_neg hv]
      cases hf : fetchSimpleContent env l.url with
      | some c =>
        rcases hfc : fetchChildren env rest
            { visited := insertU st.visited l.url, log := st.log ++ [l.url] } with ⟨ps, st3⟩
        have hih := ih { visited := insertU st.visited l.url, log := st.log ++ [l.url] }
        rw [hfc] at hih
        simp only [hfc]
        constructor
        · simp only [List.map_cons, List.nodup_cons]
          refine ⟨?_, hih.1⟩
          intro hmem
          rcases List.mem_map.mp hmem with ⟨p, hp, hpu⟩
          exact hih.2 p hp (by rw [hpu]; exact insertU_self st.visited l.url)
        · intro p hp
          rcases List.mem_cons.mp hp with hp | hp
          · rw [hp]; exact hv
          · intro hmem
            exact hih.2 p hp (insertU_mem_of _ _ _ hmem)
      | none => exact ih _

lemma fetchChildren_not_mem_map (env : FetchEnv) (links : List DocLink) (st : CrawlState)
    (u : String) (hu : u ∈ st.visited) :
    u ∉ ((fetchChildren env links st).1).map PageResult.url := by
  intro hmem
  rcases List.mem_map.mp hmem with ⟨p, hp, hpu⟩
  exact (fetchChildren_spec env links st).2 p hp (by rw [hpu]; exact hu)

lemma crawlChildren_spec
    (recurse : String → RecState → List PageResult × RecState)
    (hrec : ∀ u s, ∃ d : List String,
      (recurse u s).2.visited = s.visited ++ d ∧
      (recurse u s).2.log = s.log ++ d ∧
      d.Nodup ∧ (∀ x ∈ d, x ∉ s.visited) ∧
      (((recurse u s).1).map PageResult.url).Sublist d) :
    ∀ (links : List DocLink) (base : String) (st : RecState),
      ∃ d : List String,
        (crawlChildren recurse links base st).2.visited = st.visited ++ d ∧
        (crawlChildren recurse links base st).2.log = st.log ++ d ∧
        d.Nodup ∧ (∀ x ∈ d, x ∉ st.visited) ∧
        (((crawlChildren recurse links base st).1).map PageResult.url).Sublist d := by
  intro links
  induction links with
  | nil =>
    intro base st
    exact ⟨[], by simp [crawlChildren], by simp [crawlChildren], List.nodup_nil,
      by simp, by simp [crawlChildren]⟩
  | cons l rest ih =>
    intro base st
    cases hr : resolveUrl l.url base with
    | none =>
      simpa only [crawlChildren, hr] using ih base st
    | some fullUrl =>
      by_cases hcond : isSameDomain fullUrl base = true ∧ fullUrl ∉ st.visited
      · rcases hr1 : recurse fullUrl st with ⟨r1, st1⟩
        rcases hrec fullUrl st with ⟨d1, e1v, e1l, n1, f1, s1⟩
        rw [hr1] at e1v e1l s1
        rcases ih base st1 with ⟨d2, e2v, e2l, n2, f2, s2⟩
        refine ⟨d1 ++ d2, ?_, ?_, ?_, ?_, ?_⟩
        · simp only [crawlChildren, hr, if_pos hcond, hr1]
          rw [e2v, e1v, List.append_assoc]
        · simp only [crawlChildren, hr, if_pos hcond, hr1]
          rw [e2l, e1l, List.append_assoc]
        · rw [List.nodup_append]
          refine ⟨n1, n2, ?_⟩
          intro x hx1 hx2
          have := f2 x hx2
          rw [e1v] at this
          exact this (List.mem_append.mpr (Or.inr hx1))
        · intro x hx
          rcases List.mem_append.mp hx with hx | hx
          · exact f1 x hx
          · intro hmem
            have := f2 x hx
            rw [e1v] at this
            exact this (List.mem_append.mpr (Or.inl hmem))
        · simp only [crawlChildren, hr, if_pos hcond, hr1, List.map_append]
          exact List.Sublist.append s1 s2
      · simp only [crawlChildren, hr, if_neg hcond]
        exact ih base st

lemma fetchDocRec_spec (env : RecEnv) :
    ∀ (b : Nat) (url : String) (st : RecState),
      ∃ d : List String,
        (fetchDocRec env b url st).2.visited = st.visited ++ d ∧
        (fetchDocRec env b url st).2.log = st.log ++ d ∧
        d.Nodup ∧ (∀ x ∈ d, x ∉ st.visited) ∧
        (((fetchDocRec env b url st).1).map PageResult.url).Sublist d := by
  intro b
  induction b with
  | zero =>
    intro url st
    exact ⟨[], by simp [fetchDocRec], by simp [fetchDocRec], List.nodup_nil,
      by simp, by simp [fetchDocRec]⟩
  | succ n ih =>
    intro url st
    by_cases hv : url ∈ st.visited
    · exact ⟨[], by simp [fetchDocRec, hv], by simp [fetchDocRec, hv], List.nodup_nil,
        by simp, by simp [fetchDocRec, hv]⟩
    · cases hf : fetchSinglePage env url with
      | error msg =>
        refine ⟨[url], ?_, ?_, List.nodup_singleton url, ?_, ?_⟩
        · simp [fetchDocRec, hv, hf]
        · simp [fetchDocRec, hv, hf]
        · intro x hx
          rw [List.mem_singleton.mp hx]
          exact hv
        · simp [fetchDocRec, hv, hf]
      | ok c =>
        by_cases hb : 1 ≤ n
        · rcases hcc : crawlChildren (fun u s => fetchDocRec env n u s) (sortedLinksOf c) url
              { visited := st.visited ++ [url], log := st.log ++ [url] } with ⟨children, st2⟩
          rcases crawlChildren_spec _ ih (sortedLinksOf c) url
              { visited := st.visited ++ [url], log := st.log ++ [url] } with
            ⟨d2, e2v, e2l, n2, f2, s2⟩
          rw [hcc] at e2v e2l s2
          have e2v2 : st2.visited = (st.visited ++ [url]) ++ d2 := e2v
          have e2l2 : st2.log = (st.log ++ [url]) ++ d2 := e2l
          have s22 : (children.map PageResult.url).Sublist d2 := s2
          have f22 : ∀ x ∈ d2, x ∉ st.visited ++ [url] := f2
          have hstep : fetchDocRec env (n + 1) url st =
              ({ url := url, title := some (titleFromUrl url), content := c.mainContent,
                 links := sortedLinksOf c } :: children, st2) := by
            simp [fetchDocRec, hv, hf, hb, hcc]
          refine ⟨url :: d2, ?_, ?_, ?_, ?_, ?_⟩
          · rw [hstep]
            show st2.visited = st.visited ++ url :: d2
            rw [e2v2, List.append_assoc]
            rfl
          · rw [hstep]
            show st2.log = st.log ++ url :: d2
            rw [e2l2, List.append_assoc]
            rfl
          · rw [List.nodup_cons]
            refine ⟨?_, n2⟩
            intro hmem
            exact f22 url hmem (List.mem_append.mpr (Or.inr (List.mem_singleton.mpr rfl)))
          · intro x hx
            rcases List.mem_cons.mp hx with hx | hx
            · rw [hx]; exact hv
            · intro hmem
              exact f22 x hx (List.mem_append.mpr (Or.inl hmem))
          · rw [hstep]
            exact List.Sublist.cons₂ url s22
        · refine ⟨[url], ?_, ?_, List.nodup_singleton url, ?_, ?_⟩
          · simp [fetchDocRec, hv, hf, hb]
          · simp [fetchDocRec, hv, hf, hb]
          · intro x hx
            rw [List.mem_singleton.mp hx]
            exact hv
          · simp [fetchDocRec, hv, hf, hb]

lemma extractLinks_nil (doc : HtmlDoc) (baseUrl : String)
    (h : ∀ a ∈ doc.anchors, ∀ u, jsUrlResolve (strTrim a.href) baseUrl = some u →
      isSameDomain u baseUrl = false) :
    extractLinks doc baseUrl = [] := by
  unfold extractLinks
  rw [List.filterMap_eq_nil_iff]
  intro a ha
  by_cases hc : (strTrim a.href = "" || strStartsWith (strTrim a.href) "#" ||
      strStartsWith (strTrim a.href) "javascript:" ||
      strStartsWith (strTrim a.href) "mailto:" ||
      strStartsWith (strTrim a.href) "tel:") = true
  · simp only [hc, if_true]
  · simp only [hc, if_false]
    cases hres : jsUrlResolve (strTrim a.href) baseUrl with
    | none => rfl
    | some u => simp [h a ha u hres]

lemma crawlChildren_cross (recurse : String → RecState → List PageResult × RecState)
    (links : List DocLink) (base : String)
    (h : ∀ l ∈ links, ∀ u, resolveUrl l.url base = some u → isSameDomain u base = false) :
    ∀ st, crawlChildren recurse links base st = ([], st) := by
  induction links with
  | nil => intro st; rfl
  | cons l rest ih =>
    intro st
    have htl : ∀ l2 ∈ rest, ∀ u, resolveUrl l2.url base = some u →
        isSameDomain u base = false :=
      fun l2 h2 u hu => h l2 (List.mem_cons_of_mem l h2) u hu
    cases hr : resolveUrl l.url base with
    | none =>
      simp only [crawlChildren, hr]
      exact ih htl st
    | some u =>
      have hf : isSameDomain u base = false := h l (List.mem_cons_self l rest) u hr
      have hcond : ¬ (isSameDomain u base = true ∧ u ∉ st.visited) := by
        rw [hf]; rintro ⟨h1, _⟩; exact absurd h1 (by simp)
      simp only [crawlChildren, hr, if_neg hcond]
      exact ih htl st

lemma foldl_bonus (p : String → Bool) (ws : List String) :
    ∀ init : ℚ, ws.foldl (fun acc w => if p w then acc + 2 else acc) init =
      init + 2 * ((ws.filter p).length : ℚ) := by
  induction ws with
  | nil => intro init; simp
  | cons w rest ih =>
    intro init
    by_cases hw : p w
    · rw [show (w :: rest).foldl (fun acc w => if p w then acc + 2 else acc) init =
          rest.foldl (fun acc w => if p w then acc + 2 else acc) (init + 2) from by
        simp [hw]]
      rw [ih (init + 2), List.filter_cons, if_pos hw, List.length_cons]
      push_cast
      ring
    · rw [show (w :: rest).foldl (fun acc w => if p w then acc + 2 else acc) init =
          rest.foldl (fun acc w => if p w then acc + 2 else acc) init from by simp [hw]]
      rw [ih init, List.filter_cons, if_neg hw]

lemma anchorRelevance_eq (a : DomAnchor) : anchorRelevance a = specRelevance a := by
  unfold anchorRelevance specRelevance
  rw [foldl_bonus]
  cases hm : a.inMain
  · simp only [Bool.false_eq_true, if_false, add_zero]
    ring
  · simp only [if_true]
    ring

lemma extractContent_links (p : DomPage) : (extractContent p).relatedLinks = specLinks p := by
  unfold extractContent specLinks
  refine List.filterMap_congr (fun a _ => ?_)
  rw [anchorRelevance_eq]

lemma contains_x_false (c0 : Char) (ts : List Char) (n : Nat) (h : c0 ≠ 'x') :
    containsSub (c0 :: ts) (List.replicate n 'x') = false := by
  induction n with
  | zero => simp [containsSub, startsWithL]
  | succ m ih =>
    rw [List.replicate_succ]
    have hs : startsWithL (c0 :: ts) ('x' :: List.replicate m 'x') = false := by
      have hne : ('x' = c0) = False := by
        simp [Ne.symm h]
      simp [startsWithL, hne]
    simp [containsSub, hs, ih]

lemma informative_x (n : Nat) :
    (informativeWords.filter
      (fun w => strContains (strToLower (⟨List.replicate n 'x'⟩ : String)) w)).length = 0 := by
  have hlow : strToLower (⟨List.replicate n 'x'⟩ : String) = ⟨List.replicate n 'x'⟩ := by
    show (⟨toLowerL (List.replicate n 'x')⟩ : String) = _
    unfold toLowerL
    rw [List.map_replicate, show toLowerAscii 'x' = 'x' from by decide]
  rw [hlow]
  have h1 : strContains (⟨List.replicate n 'x'⟩ : String) "guide" = false :=
    contains_x_false 'g' "uide".data n (by decide)
  have h2 : strContains (⟨List.replicate n 'x'⟩ : String) "docs" = false :=
    contains_x_false 'd' "ocs".data n (by decide)
  have h3 : strContains (⟨List.replicate n 'x'⟩ : String) "tutorial" = false :=
    contains_x_false 't' "utorial".data n (by decide)
  have h4 : strContains (⟨List.replicate n 'x'⟩ : String) "reference" = false :=
    contains_x_false 'r' "eference".data n (by decide)
  have h5 : strContains (⟨List.replicate n 'x'⟩ : String) "example" = false :=
    contains_x_false 'e' "xample".data n (by decide)
  have h6 : strContains (⟨List.replicate n 'x'⟩ : String) "api" = false :=
    contains_x_false 'a' "pi".data n (by decide)
  have h7 : strContains (⟨List.replicate n 'x'⟩ : String) "learn" = false :=
    contains_x_false 'l' "earn".data n (by decide)
  have h8 : strContains (⟨List.replicate n 'x'⟩ : String) "how to" = false :=
    contains_x_false 'h' "ow to".data n (by decide)
  simp [informativeWords, List.filter, h1, h2, h3, h4, h5, h6, h7, h8]

lemma specRelevance_rep (h : String) (n : Nat) :
    specRelevance { href := h, text := ⟨List.replicate n 'x'⟩, inMain := false } =
      min ((n : ℚ) / 10) 5 := by
  unfold specRelevance
  dsimp only
  rw [informative_x n]
  rw [show ((⟨List.replicate n 'x'⟩ : String)).length = n from by simp [String.length]]
  norm_num

/-! Layer 10: the claims. -/

/-- Claim C1 counterexample: with the root unfetchable (the rendering
engine fails on every URL), the recursive server returns a plain success
response whose ExplorationResult has pagesExplored zero, empty content and
no error field, instead of the error response the claim requires. -/
theorem c1_counterexample :
    handleToolCallRec envC1Rec "https://example.com/" 1 = .success
      { rootUrl := "https://example.com/", explorationDepth := 1, pagesExplored := 0,
        content := [], error := none } := by decide

/-- Claim C1 amended: when the root URL cannot be fetched, neither server
surfaces an error response.  The recursive server returns a success-shaped
ExplorationResult with pagesExplored zero, empty content and no error
field; the simplified server returns a non-error ExplorationResult with
pagesExplored one (the visited-set size), empty content and the failure
message in the error field. -/
theorem c1_amended :
    (∀ (env : RecEnv) (url : String) (depth : Nat) (msg : String),
      fetchSinglePage env url = .error msg →
        handleToolCallRec env url depth = .success
          { rootUrl := url, explorationDepth := depth, pagesExplored := 0,
            content := [], error := none }) ∧
    (∀ (env : FetchEnv) (url : String) (depth : Nat) (msg : String),
      axiosAccepted (env.axiosResp url) = none → env.puppeteer url = .failure msg →
        (fetchContent env url depth { visited := [], log := [] }).1 =
          { rootUrl := url, explorationDepth := depth, pagesExplored := 1,
            content := [], error := some msg }) := by
  constructor
  · intro env url depth msg h
    unfold handleToolCallRec fetchDocContentRecursive
    cases hb : depth - 0 with
    | zero => simp [fetchDocRec]
    | succ n => simp [fetchDocRec, h]
  · intro env url depth msg h hp
    unfold fetchContent fetchWithPuppeteer
    simp only [h, hp]
    simp [insertU]

/-- Claim C1 witness: the amended claim at the concrete environments whose
root fetch fails on every strategy. -/
theorem c1_witness :
    fetchSinglePage envC1Rec "https://example.com/" = .error "net::ERR_CONNECTION_REFUSED" ∧
    handleToolCallRec envC1Rec "https://example.com/" 2 = .success
      { rootUrl := "https://example.com/", explorationDepth := 2, pagesExplored := 0,
        content := [], error := none } ∧
    axiosAccepted (envC1Simp.axiosResp "https://example.com/") = none ∧
    envC1Simp.puppeteer "https://example.com/" = .failure "net::ERR_CONNECTION_REFUSED" ∧
    (fetchContent envC1Simp "https://example.com/" 1 { visited := [], log := [] }).1 =
      { rootUrl := "https://example.com/", explorationDepth := 1, pagesExplored := 1,
        content := [], error := some "net::ERR_CONNECTION_REFUSED" } :=
  ⟨by rfl,
   c1_amended.1 envC1Rec "https://example.com/" 2 "net::ERR_CONNECTION_REFUSED" (by rfl),
   by rfl, by rfl,
   c1_amended.2 envC1Simp "https://example.com/" 1 "net::ERR_CONNECTION_REFUSED"
     (by rfl) (by rfl)⟩

/-- Claim C2 counterexample: when the 45 second deadline fires first, the
handler returns the isError response with the fixed timeout text and no
ExplorationResult at all, even though the same request without the timeout
would have produced one page; the partial result is discarded rather than
returned with pagesExplored and an error field. -/
theorem c2_counterexample :
    handleToolCall envC2 "https://example.com/" 1 true =
      .failure "Error fetching content: Operation timed out before completion" ∧
    handleToolCall envC2 "https://example.com/" 1 false = .success
      { rootUrl := "https://example.com/", explorationDepth := 1, pagesExplored := 1,
        content := [{ url := "https://example.com/", title := none,
                      content := "Hello world", links := [] }], error := none } :=
  ⟨rfl, by decide⟩

/-- Claim C2 amended: when the global 45 second deadline elapses before
the fetch settles, the request fails as a whole: for every environment the
handler returns the isError response carrying the fixed timeout message,
not a partial ExplorationResult with pagesExplored zero and an error
field. -/
theorem c2_amended :
    ∀ (env : FetchEnv) (url : String) (depth : Nat),
      handleToolCall env url depth true =
        .failure "Error fetching content: Operation timed out before completion" :=
  fun _ _ _ => rfl

/-- Claim C3 counterexample: a request whose root is unfetchable by both
strategies yields pagesExplored one with empty content, so pagesExplored
counts the failed root attempt and differs from the number of PageResult
entries. -/
theorem c3_counterexample :
    (fetchContent envC3Down "https://docs.example.com/" 1 { visited := [], log := [] }).1 =
      { rootUrl := "https://docs.example.com/", explorationDepth := 1, pagesExplored := 1,
        content := [], error := some "net::ERR_NAME_NOT_RESOLVED" } := by decide

/-- Claim C3 amended: on every successful fetch path (axios acceptance or
puppeteer page) pagesExplored equals the number of PageResult entries in
content, failed children are omitted and no top-level error is set; on the
fallback error path pagesExplored is the visited-set size (one for the
root) while content is empty, so only there a failed attempt is counted. -/
theorem c3_amended :
    (∀ (env : FetchEnv) (url : String) (depth : Nat) (doc : HtmlDoc),
      axiosAccepted (env.axiosResp url) = some doc →
        (fetchContent env url depth { visited := [], log := [] }).1.pagesExplored =
          (fetchContent env url depth { visited := [], log := [] }).1.content.length ∧
        (fetchContent env url depth { visited := [], log := [] }).1.error = none) ∧
    (∀ (env : FetchEnv) (url : String) (depth : Nat) (p : RenderedPage),
      axiosAccepted (env.axiosResp url) = none → env.puppeteer url = .page p →
        (fetchContent env url depth { visited := [], log := [] }).1.pagesExplored =
          (fetchContent env url depth { visited := [], log := [] }).1.content.length ∧
        (fetchContent env url depth { visited := [], log := [] }).1.error = none) ∧
    (∀ (env : FetchEnv) (url : String) (depth : Nat) (msg : String),
      axiosAccepted (env.axiosResp url) = none → env.puppeteer url = .failure msg →
        (fetchContent env url depth { visited := [], log := [] }).1.pagesExplored = 1 ∧
        (fetchContent env url depth { visited := [], log := [] }).1.content = [] ∧
        (fetchContent env url depth { visited := [], log := [] }).1.error = some msg) := by
  refine ⟨?_, ?_, ?_⟩
  · intro env url depth doc h
    unfold fetchContent
    simp only [h]
    by_cases hd : depth ≤ 1
    · simp [hd]
    · simp only [hd, if_false]
      rcases hfc : fetchChildren env ((extractLinks doc url).take 5)
          { visited := insertU [] url, log := [] ++ [url] } with ⟨children, st2⟩
      simp [hfc]
      omega
  · intro env url depth p h hp
    unfold fetchContent fetchWithPuppeteer
    simp only [h, hp]
    by_cases hd : depth ≤ 1 ∨ puppeteerResolveLinks (puppeteerEvalLinks p.anchors) url = []
    · simp [hd]
    · simp only [hd, if_false]
      rcases hfc : fetchChildren env
          ((puppeteerResolveLinks (puppeteerEvalLinks p.anchors) url).take 3)
          { visited := insertU [] url, log := [] ++ [url] } with ⟨children, st2⟩
      simp [hfc]
      omega
  · intro env url depth msg h hp
    unfold fetchContent fetchWithPuppeteer
    simp only [h, hp]
    simp [insertU]

/-- Claim C3 witness: the five-children scenario with two failing child
fetches gives pagesExplored four, equal to the content length (root plus
three children), omits the failed children and sets no error. -/
theorem c3_witness :
    axiosAccepted (envC3.axiosResp rootC3) = some docC3 ∧
    ((fetchContent envC3 rootC3 2 { visited := [], log := [] }).1.pagesExplored =
      (fetchContent envC3 rootC3 2 { visited := [], log := [] }).1.content.length ∧
     (fetchContent envC3 rootC3 2 { visited := [], log := [] }).1.error = none) ∧
    (fetchContent envC3 rootC3 2 { visited := [], log := [] }).1.pagesExplored = 4 ∧
    (fetchContent envC3 rootC3 2 { visited := [], log := [] }).1.content.map PageResult.url =
      [rootC3, "https://docs.example.com/p1", "https://docs.example.com/p2",
       "https://docs.example.com/p4"] :=
  ⟨by decide, c3_amended.1 envC3 rootC3 2 docC3 (by decide), by decide, by decide⟩

/-- Claim C4 counterexample: in the simplified server a child URL that
appears twice among the extracted links and fails to fetch is fetched
twice within one request, because the visited-set insertion happens only
after a successful child fetch; the fetch log shows the duplicate. -/
theorem c4_counterexample :
    (fetchContent envC4 "https://example.com/" 2 { visited := [], log := [] }).2.log =
      ["https://example.com/", "https://example.com/dup", "https://example.com/dup"] := by
  decide

/-- Claim C4 amended: in both implementations no page URL appears twice in
the returned content.  In the recursive server the visited set and the
fetch log are extended together at the moment a branch commits, before the
fetch, so no URI is ever fetched twice there; in the simplified server the
child insertion happens only after a successful fetch, so a failing URI
recurring among the links can be fetched again. -/
theorem c4_amended :
    (∀ (env : FetchEnv) (url : String) (depth : Nat),
      (((fetchContent env url depth { visited := [], log := [] }).1.content).map
        PageResult.url).Nodup) ∧
    (∀ (env : RecEnv) (url : String) (depth : Nat),
      ((fetchDocContentRecursive env url depth 0 { visited := [], log := [] }).2.log).Nodup ∧
      (fetchDocContentRecursive env url depth 0 { visited := [], log := [] }).2.log =
        (fetchDocContentRecursive env url depth 0 { visited := [], log := [] }).2.visited ∧
      (((fetchDocContentRecursive env url depth 0 { visited := [], log := [] }).1).map
        PageResult.url).Nodup) := by
  constructor
  · intro env url depth
    unfold fetchContent
    cases h : axiosAccepted (env.axiosResp url) with
    | some doc =>
      simp only [h]
      by_cases hd : depth ≤ 1
      · simp [hd]
      · simp only [hd, if_false]
        rcases hfc : fetchChildren env ((extractLinks doc url).take 5)
            { visited := insertU [] url, log := [] ++ [url] } with ⟨children, st2⟩
        have hspec := fetchChildren_spec env ((extractLinks doc url).take 5)
            { visited := insertU [] url, log := [] ++ [url] }
        have hnm := fetchChildren_not_mem_map env ((extractLinks doc url).take 5)
            { visited := insertU [] url, log := [] ++ [url] } url (insertU_self [] url)
        rw [hfc] at hspec hnm
        have h1 : (children.map PageResult.url).Nodup := hspec.1
        have h2 : url ∉ children.map PageResult.url := hnm
        simp [hfc, List.nodup_cons, h1, h2]
    | none =>
      simp only [h]
      unfold fetchWithPuppeteer
      cases hp : env.puppeteer url with
      | page p =>
        by_cases hd : depth ≤ 1 ∨ puppeteerResolveLinks (puppeteerEvalLinks p.anchors) url = []
        · simp [hd]
        · simp only [hd, if_false]
          rcases hfc : fetchChildren env
              ((puppeteerResolveLinks (puppeteerEvalLinks p.anchors) url).take 3)
              { visited := insertU [] url, log := [] ++ [url] } with ⟨children, st2⟩
          have hspec := fetchChildren_spec env
              ((puppeteerResolveLinks (puppeteerEvalLinks p.anchors) url).take 3)
              { visited := insertU [] url, log := [] ++ [url] }
          have hnm := fetchChildren_not_mem_map env
              ((puppeteerResolveLinks (puppeteerEvalLinks p.anchors) url).take 3)
              { visited := insertU [] url, log := [] ++ [url] } url (insertU_self [] url)
          rw [hfc] at hspec hnm
          have h1 : (children.map PageResult.url).Nodup := hspec.1
          have h2 : url ∉ children.map PageResult.url := hnm
          simp [hfc, List.nodup_cons, h1, h2]
      | failure msg => simp [hp]
  · intro env url depth
    rcases fetchDocRec_spec env (depth - 0) url { visited := [], log := [] } with
      ⟨d, ev, el, nd, _, sub⟩
    unfold fetchDocContentRecursive
    simp only [List.nil_append] at ev el
    refine ⟨?_, ?_, ?_⟩
    · rw [el]; exact nd
    · rw [el, ev]
    · exact List.Nodup.sublist sub nd

/-- Claim C5 counterexample: in the simplified server a page whose only
outbound link is cross-domain returns that page with an empty links array
at depth three; the cross-domain link is not recorded in the links list,
contrary to the claim. -/
theorem c5_counterexample :
    (fetchContent envC5 "https://root.com/" 3 { visited := [], log := [] }).1 =
      { rootUrl := "https://root.com/", explorationDepth := 3, pagesExplored := 1,
        content := [{ url := "https://root.com/", title := none,
                      content := "Hub page", links := [] }], error := none } := by
  decide

/-- Claim C5 amended: cross-domain links are never recursed into by either
implementation, so a page with only cross-domain outbound links explored
at depth three returns exactly one page.  In the recursive server those
links appear in the returned links array of the page (subject to the
boilerplate filter and top-ten cap); in the simplified server extractLinks
drops them, so the links array omits them entirely. -/
theorem c5_amended :
    (∀ (env : FetchEnv) (url : String) (depth : Nat) (doc : HtmlDoc),
      axiosAccepted (env.axiosResp url) = some doc →
      (∀ a ∈ doc.anchors, ∀ u, jsUrlResolve (strTrim a.href) url = some u →
        isSameDomain u url = false) →
      (fetchContent env url depth { visited := [], log := [] }).1 =
        { rootUrl := url, explorationDepth := depth, pagesExplored := 1,
          content := [{ url := url, title := none,
                        content := extractTextContent doc.raw, links := [] }],
          error := none }) ∧
    (∀ (env : RecEnv) (url : String) (c : ExtractedContent),
      fetchSinglePage env url = .ok c →
      (∀ l ∈ sortedLinksOf c, ∀ u, resolveUrl l.url url = some u →
        isSameDomain u url = false) →
      handleToolCallRec env url 3 = .success
        { rootUrl := url, explorationDepth := 3, pagesExplored := 1,
          content := [{ url := url, title := some (titleFromUrl url),
                        content := c.mainContent, links := sortedLinksOf c }],
          error := none }) := by
  constructor
  · intro env url depth doc h hcross
    have hlinks : extractLinks doc url = [] := extractLinks_nil doc url hcross
    unfold fetchContent
    simp only [h, hlinks]
    by_cases hd : depth ≤ 1
    · simp [hd]
    · simp only [hd, if_false]
      rw [show (([] : List DocLink).take 5) = [] from rfl]
      rw [show fetchChildren env []
          { visited := insertU [] url, log := [] ++ [url] } =
          ([], { visited := insertU [] url, log := [] ++ [url] }) from rfl]
      rfl
  · intro env url c h hcross
    unfold handleToolCallRec fetchDocContentRecursive
    rw [show (3 : Nat) - 0 = 1 + 1 + 1 from rfl]
    simp only [fetchDocRec, List.not_mem_nil, if_false, h]
    rw [crawlChildren_cross _ (sortedLinksOf c) url hcross _]
    simp

/-- Claim C5 witness: the amended claim at a concrete recursive-server
environment whose root page holds a single cross-domain anchor; the
exploration at depth three returns exactly one page and the cross-domain
link appears in its links array. -/
theorem c5_witness :
    fetchSinglePage envC5Rec "https://root.com/" = .ok extractedC5 ∧
    sortedLinksOf extractedC5 = [{ url := "https://other.com/a", text := "API Guide" }] ∧
    handleToolCallRec envC5Rec "https://root.com/" 3 = .success
      { rootUrl := "https://root.com/", explorationDepth := 3, pagesExplored := 1,
        content := [{ url := "https://root.com/",
                      title := some (titleFromUrl "https://root.com/"),
                      content := extractedC5.mainContent,
                      links := sortedLinksOf extractedC5 }],
        error := none } := by
  have hok : fetchSinglePage envC5Rec "https://root.com/" = .ok extractedC5 := by
    unfold fetchSinglePage
    rw [show envC5Rec.nav "https://root.com/" = .status 200 pageC5 from by
      simp [envC5Rec]]
    have hbody : ((strTrim pageC5.bodyText).length ≤ 100) = False := by
      have hb : strTrim pageC5.bodyText = ⟨List.replicate 150 'b'⟩ := by
        show (⟨trimL (List.replicate 150 'b')⟩ : String) = _
        rw [trimL_no_ws _ (fun c hc => by rw [List.eq_of_mem_replicate hc]; decide)]
      rw [hb]
      simp [String.length]
    have hmain : (strTrim (extractContent pageC5).mainContent = "") = False := by
      simp only [eq_iff_iff, iff_false]
      intro hcontra
      have h3 : strTrim (cleanText "Hub page with pointers elsewhere") = "" := hcontra
      exact absurd h3 (by decide)
    simp [isValidUrl, hbody, hmain, extractedC5]
    decide
  have hsort : sortedLinksOf extractedC5 =
      [{ url := "https://other.com/a", text := "API Guide" }] := by decide
  refine ⟨hok, hsort, ?_⟩
  refine c5_amended.2 envC5Rec "https://root.com/" extractedC5 hok ?_
  intro l hl u hu
  rw [hsort] at hl
  simp at hl
  rw [hl] at hu
  have hue : u = "https://other.com/a" := by
    have h2 : resolveUrl "https://other.com/a" "https://root.com/" =
        some "https://other.com/a" := by decide
    rw [h2] at hu
    exact (Option.some.injEq _ _ ▸ hu).symm
  rw [hue]
  decide

/-- Claim C6 counterexample: a full fetch through the DOM-aware extraction
path returns a main content of 10001 characters unchanged, with no
truncation and no marker, refuting the claim that every content-producing
path cuts over-long content to the bound. -/
theorem c6_counterexample :
    fetchSinglePage envC6Rec "https://example.com/long_page" =
      .ok { mainContent := ⟨List.replicate 10001 'a'⟩, relatedLinks := [] } ∧
    10000 < ((⟨List.replicate 10001 'a'⟩ : String)).length := by
  have hplain : ∀ c ∈ List.replicate 10001 'a', isJsWs c = false :=
    fun c hc => by rw [List.eq_of_mem_replicate hc]; decide
  have hclean : cleanText (⟨List.replicate 10001 'a'⟩ : String) =
      ⟨List.replicate 10001 'a'⟩ := by
    show (⟨cleanTextL (List.replicate 10001 'a')⟩ : String) = _
    rw [cleanTextL_plain _ hplain]
  have htrim : strTrim (⟨List.replicate 10001 'a'⟩ : String) =
      ⟨List.replicate 10001 'a'⟩ := by
    show (⟨trimL (List.replicate 10001 'a')⟩ : String) = _
    rw [trimL_no_ws _ hplain]
  have hrlen : (List.replicate 10001 'a').length = 10001 := List.length_replicate 10001 'a'
  have hne : (⟨List.replicate 10001 'a'⟩ : String) ≠ "" := by
    intro hcontra
    have hd : List.replicate 10001 'a' = ([] : List Char) := congrArg String.data hcontra
    have hl : (List.replicate 10001 'a').length = ([] : List Char).length :=
      congrArg List.length hd
    rw [hrlen] at hl
    exact absurd hl (by decide)
  have hextract : extractContent pageC6 =
      { mainContent := ⟨List.replicate 10001 'a'⟩, relatedLinks := [] } := by
    unfold extractContent
    rw [show cleanText pageC6.mainText = ⟨List.replicate 10001 'a'⟩ from hclean]
    rfl
  constructor
  · unfold fetchSinglePage
    have hnav : envC6Rec.nav "https://example.com/long_page" = .status 200 pageC6 := rfl
    rw [hnav, if_neg (show ¬ ¬ isValidUrl "https://example.com/long_page" = true from
      by decide)]
    dsimp only
    have hlenb : (strTrim pageC6.bodyText).length = 10001 := by
      rw [show strTrim pageC6.bodyText = ⟨List.replicate 10001 'a'⟩ from htrim]
      exact hrlen
    rw [if_neg (show ¬ (200 : Nat) ≠ 200 from by decide),
        if_neg (show ¬ (strTrim pageC6.bodyText).length ≤ 100 from by rw [hlenb]; decide)]
    have hmc : strTrim (extractContent pageC6).mainContent = ⟨List.replicate 10001 'a'⟩ := by
      rw [hextract]
      exact htrim
    rw [if_neg (show ¬ strTrim (extractContent pageC6).mainContent = "" from by
      rw [hmc]; exact hne)]
    rw [hextract]
  · show 10000 < (List.replicate 10001 'a').length
    rw [hrlen]
    decide

/-- Claim C6 amended: the length bound of ten thousand characters with the
truncation marker holds on the simplified server, both for
extractTextContent (the lightweight path and child fetches) and for the
puppeteer path, with content at or under the bound returned unchanged; the
DOM-aware ContentExtractor applies no truncation at all: its main content
is exactly the cleaned text of the selected element, whatever its
length. -/
theorem c6_amended :
    (∀ h : String,
      (10000 < (basicCleanL h.data).length →
        (extractTextContent h).data = (basicCleanL h.data).take 10000 ++ truncMarker.data) ∧
      ((basicCleanL h.data).length ≤ 10000 → extractTextContent h = ⟨basicCleanL h.data⟩)) ∧
    (∀ m : String,
      (10000 < (trimL (collapseWsL (trimL m.data))).length →
        (puppeteerCleanContent m).data =
          (trimL (collapseWsL (trimL m.data))).take 10000 ++ truncMarker.data) ∧
      ((trimL (collapseWsL (trimL m.data))).length ≤ 10000 →
        puppeteerCleanContent m = ⟨trimL (collapseWsL (trimL m.data))⟩)) ∧
    (∀ p : DomPage, (extractContent p).mainContent = cleanText p.mainText) := by
  refine ⟨fun h => ⟨?_, ?_⟩, fun m => ⟨?_, ?_⟩, fun p => rfl⟩
  · intro hlen
    show truncateTextL (basicCleanL h.data) = _
    unfold truncateTextL
    rw [if_pos hlen]
  · intro hlen
    show (⟨truncateTextL (basicCleanL h.data)⟩ : String) = _
    unfold truncateTextL
    rw [if_neg (Nat.not_lt.mpr hlen)]
  · intro hlen
    show truncateTextL (trimL (collapseWsL (trimL m.data))) = _
    unfold truncateTextL
    rw [if_pos hlen]
  · intro hlen
    show (⟨truncateTextL (trimL (collapseWsL (trimL m.data)))⟩ : String) = _
    unfold truncateTextL
    rw [if_neg (Nat.not_lt.mpr hlen)]

/-- Claim C6 witness: the amended claim applied to a 10001 character input
on the truncating path and to the concrete over-long page on the
non-truncating path. -/
theorem c6_witness :
    10000 < (basicCleanL longC6.data).length ∧
    (extractTextContent longC6).data =
      (basicCleanL longC6.data).take 10000 ++ truncMarker.data ∧
    (extractContent pageC6).mainContent = cleanText pageC6.mainText := by
  have hb : basicCleanL longC6.data = List.replicate 10001 'b' :=
    basicCleanL_plain _ (replicate_plain 10001 'b' (by decide) (by decide))
  have hlen : 10000 < (basicCleanL longC6.data).length := by
    rw [hb, List.length_replicate]
    decide
  exact ⟨hlen, (c6_amended.1 longC6).1 hlen, c6_amended.2.2 pageC6⟩

/-- Claim C7: the relevance of every link produced by the DOM-aware
extraction equals the saturating text-length term min of length over ten
and five, plus five when the selected main-content element contains the
link, plus two per informative-word-list term found case-insensitively in
the link text; for anchors with text lengths five, fifty and five hundred
outside the main content and with no informative words the scores are one
half, five and five. -/
theorem c7_relevance :
    (∀ p : DomPage, (extractContent p).relatedLinks = specLinks p) ∧
    ((extractContent pageC7).relatedLinks).map ScoredLink.relevance = [1/2, 5, 5] := by
  refine ⟨extractContent_links, ?_⟩
  rw [extractContent_links pageC7]
  have hc : ∀ hr : String, hr = "/a" ∨ hr = "/b" ∨ hr = "/c" →
      (hr = "" || strStartsWith hr "#" || strStartsWith hr "javascript:" ||
       strStartsWith hr "mailto:" || strStartsWith hr "tel:") = false := by
    intro hr hor
    rcases hor with h | h | h <;> subst h <;> decide
  show (specLinks pageC7).map ScoredLink.relevance = _
  simp only [specLinks, pageC7]
  rw [List.filterMap_cons, List.filterMap_cons, List.filterMap_cons, List.filterMap_nil]
  simp only [hc "/a" (Or.inl rfl), hc "/b" (Or.inr (Or.inl rfl)), hc "/c" (Or.inr (Or.inr rfl))]
  simp only [Bool.false_eq_true, if_false, List.map_cons, List.map_nil]
  rw [specRelevance_rep "/a" 5, specRelevance_rep "/b" 50, specRelevance_rep "/c" 500]
  norm_num [min_def]

/-- Claim C8 counterexample: an HTTP 200 response with a textual but empty
body is not accepted by the lightweight path and the rendered fallback is
attempted, refuting the claimed acceptance condition of exactly HTTP 200
with a textual body. -/
theorem c8_counterexample :
    envC8.axiosResp "https://example.com/" = .ok 200 (.str { raw := "", anchors := [] }) ∧
    rootFetchTrace envC8 "https://example.com/" =
      [.lightweight 10000 chromeUA, .rendered] := ⟨rfl, by decide⟩

/-- Claim C8 amended: for every root URL the selector tries the
lightweight fetch first with the ten second timeout and the Chrome
User-Agent header; a resolved string response is accepted exactly when its
status is 200 and its body is non-empty; thrown errors and non-string
bodies are never accepted; the rendered fetcher is attempted exactly when
the lightweight result is not accepted. -/
theorem c8_amended :
    (∀ (env : FetchEnv) (url : String),
      (rootFetchTrace env url).head? = some (.lightweight 10000 chromeUA)) ∧
    (∀ (env : FetchEnv) (url : String) (status : Nat) (d : HtmlDoc),
      env.axiosResp url = .ok status (.str d) →
        (axiosAccepted (env.axiosResp url) = some d ↔ (status = 200 ∧ d.raw ≠ ""))) ∧
    (∀ (env : FetchEnv) (url : String),
      env.axiosResp url = .err →
        rootFetchTrace env url = [.lightweight 10000 chromeUA, .rendered]) ∧
    (∀ (env : FetchEnv) (url : String) (status : Nat),
      env.axiosResp url = .ok status .nonStr →
        rootFetchTrace env url = [.lightweight 10000 chromeUA, .rendered]) ∧
    (∀ (env : FetchEnv) (url : String) (d : HtmlDoc),
      axiosAccepted (env.axiosResp url) = some d →
        rootFetchTrace env url = [.lightweight 10000 chromeUA]) := by
  refine ⟨?_, ?_, ?_, ?_, ?_⟩
  · intro env url
    unfold rootFetchTrace
    cases axiosAccepted (env.axiosResp url) <;> rfl
  · intro env url status d h
    rw [h]
    unfold axiosAccepted
    by_cases hcond : status = 200 ∧ d.raw ≠ ""
    · simp [hcond]
    · simp only [hcond, if_false]
      constructor
      · intro hcontra; simp at hcontra
      · intro hcontra; exact hcontra.elim
  · intro env url h
    unfold rootFetchTrace
    rw [h]
    rfl
  · intro env url status h
    unfold rootFetchTrace
    rw [h]
    rfl
  · intro env url d h
    unfold rootFetchTrace
    rw [h]

/-- Claim C8 witness: the amended claim at an environment answering HTTP
200 with a non-empty textual body, where the lightweight result is
accepted and no rendered fetch happens. -/
theorem c8_witness :
    envC8w.axiosResp "https://example.com/" = .ok 200 (.str docC8w) ∧
    (axiosAccepted (envC8w.axiosResp "https://example.com/") = some docC8w ↔
      (200 = 200 ∧ docC8w.raw ≠ "")) ∧
    rootFetchTrace envC8w "https://example.com/" = [.lightweight 10000 chromeUA] :=
  ⟨rfl, c8_amended.2.1 envC8w "https://example.com/" 200 docC8w rfl,
   c8_amended.2.2.2.2 envC8w "https://example.com/" docC8w (by decide)⟩

/-- Claim C9: content normalization is idempotent on both cleaning
functions of the source: extractTextContent applied to its own output
returns the output unchanged, and so does cleanText. -/
theorem c9_idempotent :
    (∀ s : String, extractTextContent (extractTextContent s) = extractTextContent s) ∧
    (∀ s : String, cleanText (cleanText s) = cleanText s) :=
  ⟨extractTextContent_idem, cleanText_idem⟩

/-- Claim C10: in the simplified server, for every request of depth
greater than one, every non-root entry of the returned content carries an
empty links sequence; only the root entry can carry links. -/
theorem c10_child_links_empty :
    ∀ (env : FetchEnv) (url : String) (depth : Nat), 1 < depth →
      ((((fetchContent env url depth { visited := [], log := [] }).1.content).drop 1).all
        (fun p => p.links.isEmpty)) = true := by
  intro env url depth hdepth
  unfold fetchContent
  cases h : axiosAccepted (env.axiosResp url) with
  | some doc =>
    simp only [h]
    by_cases hd : depth ≤ 1
    · omega
    · simp only [hd, if_false]
      rcases hfc : fetchChildren env ((extractLinks doc url).take 5)
          { visited := insertU [] url, log := [] ++ [url] } with ⟨children, st2⟩
      have hall := fetchChildren_links_empty env ((extractLinks doc url).take 5)
          { visited := insertU [] url, log := [] ++ [url] }
      rw [hfc] at hall
      simpa [hfc] using hall
  | none =>
    simp only [h]
    unfold fetchWithPuppeteer
    cases hp : env.puppeteer url with
    | page p =>
      by_cases hd : depth ≤ 1 ∨ puppeteerResolveLinks (puppeteerEvalLinks p.anchors) url = []
      · simp [hd]
      · simp only [hd, if_false]
        rcases hfc : fetchChildren env
            ((puppeteerResolveLinks (puppeteerEvalLinks p.anchors) url).take 3)
            { visited := insertU [] url, log := [] ++ [url] } with ⟨children, st2⟩
        have hall := fetchChildren_links_empty env
            ((puppeteerResolveLinks (puppeteerEvalLinks p.anchors) url).take 3)
            { visited := insertU [] url, log := [] ++ [url] }
        rw [hfc] at hall
        simpa [hfc] using hall
    | failure msg => simp [hp]

/-- Claim C10 witness: a depth-two request with one successfully fetched
child returns two pages and the non-root entry has no links. -/
theorem c10_witness :
    1 < 2 ∧
    ((((fetchContent envC10 rootC10 2 { visited := [], log := [] }).1.content).drop 1).all
      (fun p => p.links.isEmpty)) = true ∧
    (fetchContent envC10 rootC10 2 { visited := [], log := [] }).1.content.length = 2 :=
  ⟨by decide, c10_child_links_empty envC10 rootC10 2 (by decide), by decide⟩
